import Mathlib

/-
  Verification development for the audit/change-tracking subsystem of the
  enterprise-application-manager repository.

  Shallow embedding of:
  - backend/apps/inventory/audit_signals.py  (AuditMixin, signal handlers)
  - backend/apps/inventory/audit.py          (AuditLogger, AuditFormatter)
  - backend/apps/inventory/middleware.py     (AuditMiddleware)
  - bin/view_audit_logs.py                   (parse_log_entry, filter_entry)

  Python values are modelled by explicit inductives; Python dicts by ordered
  association lists with last-write-wins lookup; raised exceptions by Except.
-/

namespace EamAudit

/-- Python scalar values as they occur in audit field comparison:
None, bool, int and str.  (The comparable/normalized domain.) -/
inductive PyVal where
  | pnone
  | pbool (b : Bool)
  | pint (n : Int)
  | pstr (s : String)
deriving DecidableEq

/-- Python truthiness of a scalar value. -/
def PyVal.truthy : PyVal → Bool
  | .pnone => false
  | .pbool b => b
  | .pint n => n ≠ 0
  | .pstr s => s ≠ ""

/-- Decimal digits of a natural number, as Python's str() prints them. -/
def natChars (n : Nat) : List Char :=
  if h : n < 10 then [Char.ofNat (48 + n)]
  else natChars (n / 10) ++ [Char.ofNat (48 + n % 10)]
decreasing_by exact Nat.div_lt_self (by omega) (by omega)

/-- Python str() of an int (decimal, with a leading minus sign if negative). -/
def intChars (n : Int) : List Char :=
  if n < 0 then '-' :: natChars n.natAbs else natChars n.natAbs

def intToString (n : Int) : String := String.mk (intChars n)

/-- Python str() of a scalar value. -/
def PyVal.pyStr : PyVal → String
  | .pnone => "None"
  | .pbool true => "True"
  | .pbool false => "False"
  | .pint n => intToString n
  | .pstr s => s

/-- Lookup in an ordered association list with Python-dict semantics
(the value written last for a key wins). -/
def lookupLast {κ α : Type} [DecidableEq κ] (l : List (κ × α)) (k : κ) : Option α :=
  (l.reverse.find? (fun p => p.1 = k)).map (·.2)

/-- A Django model field as seen by the audit mixin: its name, whether it is a
ForeignKey / BooleanField, its choices, and the database lookup
`field.related_model.objects.get(pk=value)` rendered to `str(related_obj)`
(`none` models DoesNotExist / AttributeError). -/
structure Field where
  name : String
  isForeignKey : Bool
  isBooleanField : Bool
  choices : List (PyVal × String)
  relatedLookup : PyVal → Option String

/-- AuditMixin._format_field_value: format a (comparison-normalized) field
value for display in audit logs.  Mirrors the source's order of checks:
None first, then ForeignKey (for truthy values), then BooleanField, then
choices, then str() with truncation of strings longer than 100 characters. -/
def format_field_value (field : Field) (value : PyVal) : String :=
  if value = .pnone then "NULL"
  else if field.isForeignKey && value.truthy then
    match field.relatedLookup value with
    | some objStr => value.pyStr ++ " (" ++ objStr ++ ")"
    | none => value.pyStr
  else if field.isBooleanField then
    (if value.truthy then "True" else "False")
  else if !field.choices.isEmpty then
    value.pyStr ++ " (" ++ (lookupLast field.choices value).getD "Unknown" ++ ")"
  else
    let strValue := value.pyStr
    if strValue.length > 100 then strValue.take 97 ++ "..." else strValue

/-- A raw Python attribute value before comparison-normalization: either a
scalar, a related model instance (an object with a `pk`, always truthy), or a
datetime (an object with `isoformat`, always truthy). -/
inductive RawValue where
  | plain (v : PyVal)
  | obj (pk : PyVal)
  | datetime (iso : String)
deriving DecidableEq

/-- The comparison-normalization applied both when storing the snapshot and
when reading the current value: foreign keys reduce to their pk, datetimes to
their isoformat string, everything else is taken as-is. -/
def RawValue.toComparable : RawValue → PyVal
  | .plain v => v
  | .obj pk => pk
  | .datetime iso => .pstr iso

/-- An in-flight entity instance carrying the audit mixin state:
its field list (`_meta.fields`), its attributes (`getattr` — `none` models a
missing attribute), the `_original_values` snapshot (`none` models the
attribute being absent altogether), whether the class mixes in AuditMixin
(hence has `get_field_changes` / `_store_original_values`), and the data used
by the audit logger (`pk`, `str(instance)`, `_meta.label`). -/
structure Entity where
  fields : List Field
  attrs : String → Option RawValue
  originalValues : Option (List (String × PyVal))
  hasAuditMixin : Bool
  pk : PyVal
  strRep : String
  metaLabel : String

/-- AuditMixin._store_original_values: write the comparison-normalized value
of every present field into the `_original_values` dict (updating in place,
so previously stored keys survive unless overwritten). -/
def store_original_values (e : Entity) : Entity :=
  let updates := e.fields.filterMap (fun f =>
    (e.attrs f.name).map (fun raw => (f.name, raw.toComparable)))
  { e with originalValues := some (e.originalValues.getD [] ++ updates) }

/-- One entry of the computed diff: (field name, old display, new display). -/
abbrev ChangeEntry := String × String × String

/-- AuditMixin.get_field_changes: empty when no `_original_values` snapshot is
present; otherwise, for each present field, compare the comparison-normalized
current value to the snapshot value (missing snapshot key reads as None) and
record display-formatted old/new values when they differ. -/
def get_field_changes (e : Entity) : List ChangeEntry :=
  match e.originalValues with
  | none => []
  | some orig =>
    e.fields.filterMap (fun field =>
      match e.attrs field.name with
      | none => none
      | some raw =>
        let currentComparable := raw.toComparable
        let originalValue := (lookupLast orig field.name).getD .pnone
        if currentComparable ≠ originalValue then
          some (field.name, format_field_value field originalValue,
                format_field_value field currentComparable)
        else none)

/-- A Django auth user as the audit logger sees it: username and numeric id.
Model instances are always truthy in Python. -/
structure PyUser where
  username : String
  id : Int
deriving DecidableEq

/-- The structured audit entry built by AuditLogger.log_change (the dict that
is JSON-dumped onto the log line).  `changes` maps field name to
(old display, new display); `additional_info` holds scalar context values. -/
structure AuditEvent where
  timestamp : String
  action : String
  model : String
  object_id : String
  object_str : String
  user : String
  user_id : Option Int
  changes : List ChangeEntry
  additional_info : List (String × PyVal)
deriving DecidableEq

/-- AuditLogger.log_change: builds the audit entry.  `ctxUser` is the
thread-local current user (`get_current_user`); the explicit `user` argument
takes precedence when not None; absent both, the user renders as the
sentinel "SYSTEM" with null user_id.  `now` stands for
datetime.now().strftime('%Y-%m-%d %H:%M:%S') at build time. -/
def log_change (now : String) (ctxUser : Option PyUser) (action model_name : String)
    (object_id : PyVal) (object_str : String) (changes : Option (List ChangeEntry))
    (user : Option PyUser) (additional_info : Option (List (String × PyVal))) :
    AuditEvent :=
  let user := match user with
    | none => ctxUser
    | some u => some u
  { timestamp := now
    action := action
    model := model_name
    object_id := object_id.pyStr
    object_str := object_str
    user := match user with | some u => u.username | none => "SYSTEM"
    user_id := match user with | some u => some u.id | none => none
    changes := changes.getD []
    additional_info := additional_info.getD [] }

/-- AuditLogger.log_create. -/
def log_create (now : String) (ctxUser : Option PyUser) (inst : Entity)
    (user : Option PyUser) : AuditEvent :=
  log_change now ctxUser "CREATE" inst.metaLabel inst.pk inst.strRep
    none user none

/-- AuditLogger.log_update. -/
def log_update (now : String) (ctxUser : Option PyUser) (inst : Entity)
    (changes : List ChangeEntry) (user : Option PyUser) : AuditEvent :=
  log_change now ctxUser "UPDATE" inst.metaLabel inst.pk inst.strRep
    (some changes) user none

/-- AuditLogger.log_delete. -/
def log_delete (now : String) (ctxUser : Option PyUser) (inst : Entity)
    (user : Option PyUser) : AuditEvent :=
  log_change now ctxUser "DELETE" inst.metaLabel inst.pk inst.strRep
    none user none

/-- A Django model class as seen by should_skip_audit: its app label and its
class name. -/
structure ModelClass where
  appLabel : String
  className : String

/-- Python `c.lower()` on a single character (ASCII case folding, as all
audit model names are ASCII). -/
def pyLower (s : String) : String := String.map Char.toLower s

/-- Whether `pat` occurs as a contiguous sublist of `l` (Python's `in` for
strings). -/
def containsSub (l pat : List Char) : Bool :=
  (List.range (l.length + 1)).any (fun i => pat.isPrefixOf (l.drop i))

/-- should_skip_audit: skip Django's built-in apps, migration-related models
(by name substring) and the (empty) explicit skip list. -/
def should_skip_audit (m : ModelClass) : Bool :=
  m.appLabel ∈ ["auth", "contenttypes", "sessions", "admin"]
  || containsSub (pyLower m.className).data "migration".data
  || m.className ∈ ([] : List String)

/-- audit_post_save: skip policy first; CREATE logs with no changes; a
non-create save computes the diff (empty when the instance lacks the mixin)
and logs an UPDATE only when the diff is non-empty; finally the snapshot is
replaced with the newly committed values when the mixin is present.
Returns (emitted events, instance after the handler). -/
def audit_post_save (now : String) (ctxUser : Option PyUser) (sender : ModelClass)
    (inst : Entity) (created : Bool) : List AuditEvent × Entity :=
  if should_skip_audit sender then ([], inst)
  else
    let events :=
      if created then [log_create now ctxUser inst none]
      else
        let changes := if inst.hasAuditMixin then get_field_changes inst else []
        if changes.isEmpty then [] else [log_update now ctxUser inst changes none]
    let inst' := if inst.hasAuditMixin then store_original_values inst
                 else inst
    (events, inst')

/-- audit_post_delete: skip policy, then a DELETE event with no changes. -/
def audit_post_delete (now : String) (ctxUser : Option PyUser) (sender : ModelClass)
    (inst : Entity) : List AuditEvent :=
  if should_skip_audit sender then [] else [log_delete now ctxUser inst none]

/-! ### Actor context and middleware (audit.py thread-local + middleware.py) -/

/-- The thread-local actor slot owned by the audit logger. -/
structure ActorContext where
  user : Option PyUser
deriving DecidableEq

/-- AuditLogger.set_current_user. -/
def set_current_user (_ctx : ActorContext) (u : Option PyUser) : ActorContext :=
  { user := u }

/-- AuditLogger.get_current_user. -/
def get_current_user (ctx : ActorContext) : Option PyUser := ctx.user

/-- An inbound request: `authenticatedUser` is `request.user` when the request
has an authenticated user, `none` otherwise. -/
structure HttpRequest where
  authenticatedUser : Option PyUser

/-- AuditMiddleware.process_request: capture the current user. -/
def process_request (ctx : ActorContext) (req : HttpRequest) : ActorContext :=
  match req.authenticatedUser with
  | some u => set_current_user ctx (some u)
  | none => set_current_user ctx none

/-- AuditMiddleware.process_response: clear the thread-local user. -/
def process_response (ctx : ActorContext) : ActorContext :=
  set_current_user ctx none

/-- AuditMiddleware.process_exception: clear the thread-local user. -/
def process_exception (ctx : ActorContext) : ActorContext :=
  set_current_user ctx none

/-- How a unit of work ends: a normal response, or a raised exception (in
which case Django runs process_exception and then still builds a response
that passes through process_response). -/
inductive Outcome where
  | normal
  | exceptional

/-- One unit of work on an execution thread: the middleware captures the
actor, an arbitrary handler runs (it may read or even rewrite the actor
context), and the middleware exit hooks run on the way out. -/
def run_unit_of_work (ctx : ActorContext) (req : HttpRequest)
    (handler : ActorContext → ActorContext × Outcome) : ActorContext :=
  let ctx1 := process_request ctx req
  let res := handler ctx1
  match res.2 with
  | .normal => process_response res.1
  | .exceptional => process_response (process_exception res.1)

/-! ### JSON values, json.dumps and json.loads

The audit log line carries a compact JSON encoding produced by
`json.dumps(entry, separators=(',', ':'))` and is read back with
`json.loads`.  Both are embedded here over an explicit JSON value type.
Modelling boundaries: JSON numbers are modelled as integers only (no claim
involves floats, which are out of scope), and `\uXXXX` escapes that denote
lone surrogates are rejected by the embedded decoder (Lean characters are
Unicode scalar values). -/

/-- The JSON values produced by json.loads: null, bools, (integer) numbers,
strings, arrays, and objects as ordered key/value lists with unique keys. -/
inductive Json where
  | null
  | bool (b : Bool)
  | int (n : Int)
  | str (s : String)
  | arr (elems : List Json)
  | obj (members : List (String × Json))

/-- Hex digit character (lowercase), as json.dumps prints \uXXXX escapes. -/
def hexDigit (n : Nat) : Char :=
  if n < 10 then Char.ofNat (48 + n) else Char.ofNat (87 + n)

/-- Four-digit lowercase hex rendering of n < 0x10000. -/
def toHex4 (n : Nat) : List Char :=
  [hexDigit (n / 4096 % 16), hexDigit (n / 256 % 16), hexDigit (n / 16 % 16),
   hexDigit (n % 16)]

/-- json.dumps string escaping with ensure_ascii=True: backslash and quote are
escaped, control characters use the short named escapes where available and
\uXXXX otherwise, printable ASCII passes through, and everything non-ASCII
becomes \uXXXX (a surrogate pair above the BMP). -/
def escapeChar (c : Char) : List Char :=
  if c = '"' then ['\\', '"']
  else if c = '\\' then ['\\', '\\']
  else if c = '\n' then ['\\', 'n']
  else if c = '\r' then ['\\', 'r']
  else if c = '\t' then ['\\', 't']
  else if c.toNat = 8 then ['\\', 'b']
  else if c.toNat = 12 then ['\\', 'f']
  else if 0x20 ≤ c.toNat && c.toNat ≤ 0x7e then [c]
  else if c.toNat < 0x10000 then '\\' :: 'u' :: toHex4 c.toNat
  else
    ('\\' :: 'u' :: toHex4 (0xD800 + (c.toNat - 0x10000) / 0x400)) ++
    ('\\' :: 'u' :: toHex4 (0xDC00 + (c.toNat - 0x10000) % 0x400))

def escapeList (l : List Char) : List Char := (l.map escapeChar).flatten

mutual

/-- json.dumps with separators=(',', ':'): compact encoding, insertion order
preserved for objects. -/
def dumpsVal : Json → List Char
  | .null => "null".data
  | .bool true => "true".data
  | .bool false => "false".data
  | .int n => intChars n
  | .str s => '"' :: (escapeList s.data ++ ['"'])
  | .arr xs => '[' :: (dumpsElems xs ++ [']'])
  | .obj kvs => '{' :: (dumpsMembers kvs ++ ['}'])

def dumpsElems : List Json → List Char
  | [] => []
  | [x] => dumpsVal x
  | x :: y :: xs => dumpsVal x ++ ',' :: dumpsElems (y :: xs)

def dumpsMembers : List (String × Json) → List Char
  | [] => []
  | [(k, v)] => '"' :: (escapeList k.data ++ '"' :: ':' :: dumpsVal v)
  | (k, v) :: m :: rest =>
    ('"' :: (escapeList k.data ++ '"' :: ':' :: dumpsVal v)) ++
    ',' :: dumpsMembers (m :: rest)

end

def dumps (j : Json) : String := String.mk (dumpsVal j)

/-- JSON whitespace accepted between tokens by json.loads. -/
def isWsChar (c : Char) : Bool := c = ' ' || c = '\t' || c = '\n' || c = '\r'

def skipWs (l : List Char) : List Char := l.dropWhile isWsChar

/-- Value of one hex digit (json.loads accepts either case in \uXXXX). -/
def hexVal (c : Char) : Option Nat :=
  if '0' ≤ c && c ≤ '9' then some (c.toNat - 48)
  else if 'a' ≤ c && c ≤ 'f' then some (c.toNat - 87)
  else if 'A' ≤ c && c ≤ 'F' then some (c.toNat - 55)
  else none

/-- The single-character JSON string escapes. -/
def simpleEscape (e : Char) : Option Char :=
  if e = '"' then some '"'
  else if e = '\\' then some '\\'
  else if e = '/' then some '/'
  else if e = 'b' then some (Char.ofNat 8)
  else if e = 'f' then some (Char.ofNat 12)
  else if e = 'n' then some '\n'
  else if e = 'r' then some '\r'
  else if e = 't' then some '\t'
  else none

/-- Value of four hex digits. -/
def hex4 (a b c d : Char) : Option Nat :=
  match hexVal a, hexVal b, hexVal c, hexVal d with
  | some x, some y, some z, some w => some (((x * 16 + y) * 16 + z) * 16 + w)
  | _, _, _, _ => none

/-- A low-surrogate escape `\uXXXX` (the second half of a surrogate pair). -/
def lowSurrogate (l : List Char) : Option (Nat × List Char) :=
  match l with
  | b1 :: u2 :: g1 :: g2 :: g3 :: g4 :: rest4 =>
    if b1 = '\\' ∧ u2 = 'u' then
      match hex4 g1 g2 g3 g4 with
      | some m => if 0xDC00 ≤ m ∧ m ≤ 0xDFFF then some (m, rest4) else none
      | none => none
    else none
  | _ => none

/-- One decoded character of a JSON string body: either the closing quote
(left: remainder), or a decoded character with the remainder (right).
Strict mode: raw control characters are rejected; \uXXXX escapes are
combined into surrogate pairs where applicable (a lone surrogate escape is
rejected — Lean characters are Unicode scalar values). -/
def strChar (l : List Char) : Option (Sum (List Char) (Char × List Char)) :=
  match l with
  | [] => none
  | c :: rest =>
    if c = '"' then some (.inl rest)
    else if c = '\\' then
      match rest with
      | [] => none
      | e :: rest2 =>
        if e = 'u' then
          match rest2 with
          | h1 :: h2 :: h3 :: h4 :: rest3 =>
            match hex4 h1 h2 h3 h4 with
            | some n =>
              if 0xD800 ≤ n ∧ n ≤ 0xDBFF then
                match lowSurrogate rest3 with
                | some (m, rest4) =>
                  some (.inr
                    (Char.ofNat (0x10000 + (n - 0xD800) * 0x400 + (m - 0xDC00)), rest4))
                | none => none
              else if 0xDC00 ≤ n ∧ n ≤ 0xDFFF then none
              else some (.inr (Char.ofNat n, rest3))
            | none => none
          | _ => none
        else
          match simpleEscape e with
          | some c2 => some (.inr (c2, rest2))
          | none => none
    else if 0x20 ≤ c.toNat then some (.inr (c, rest))
    else none

/-- Body of a JSON string after the opening quote, fuel-indexed (strChar
consumes at least one character per step, so an input's length bounds the
steps needed). -/
def psbGo : Nat → List Char → Option (List Char × List Char)
  | 0, _ => none
  | fuel + 1, l =>
    match strChar l with
    | some (.inl rest) => some ([], rest)
    | some (.inr (c, rest)) => (psbGo fuel rest).map (fun pr => (c :: pr.1, pr.2))
    | none => none

/-- Body of a JSON string after the opening quote: returns the decoded
characters and the remainder after the closing quote. -/
def parseStringBody (l : List Char) : Option (List Char × List Char) :=
  psbGo (l.length + 1) l

def digitsToNat (ds : List Char) : Nat :=
  ds.foldl (fun acc c => acc * 10 + (c.toNat - 48)) 0

/-- The integer part of a JSON number: 0, or a nonzero digit followed by
digits (leading zeros are not absorbed, as in the JSON grammar). -/
def parseUIntPart (l : List Char) : Option (Nat × List Char) :=
  match l with
  | [] => none
  | c :: rest =>
    if c = '0' then some (0, rest)
    else if c.isDigit then
      some (digitsToNat (c :: rest.takeWhile Char.isDigit),
            rest.dropWhile Char.isDigit)
    else none

/-- Whether a fraction or exponent follows, i.e. the number is a float (out
of the model: the embedded decoder only accepts integers). -/
def isFloatTail (l : List Char) : Bool :=
  match l with
  | [] => false
  | c :: r =>
    if c = '.' then (match r with | c2 :: _ => c2.isDigit | [] => false)
    else c = 'e' || c = 'E'

def parseNumber (l : List Char) : Option (Int × List Char) :=
  match l with
  | [] => none
  | c :: r =>
    if c = '-' then
      match parseUIntPart r with
      | some (n, rest) => if isFloatTail rest then none else some (-(n : Int), rest)
      | none => none
    else
      match parseUIntPart (c :: r) with
      | some (n, rest) => if isFloatTail rest then none else some ((n : Int), rest)
      | none => none

/-- Accumulate one parsed object member with Python-dict semantics: position
of the first occurrence of a key, value of the last. -/
def objInsert (acc : List (String × Json)) (k : String) (v : Json) :
    List (String × Json) :=
  if acc.any (fun p => p.1 = k) then
    acc.map (fun p => if p.1 = k then (k, v) else p)
  else acc ++ [(k, v)]

mutual

/-- json.loads value scanner (fuel-indexed; jsonLoads passes enough fuel for
any input).  Whitespace is skipped before a value and around separators. -/
def parseValue : Nat → List Char → Option (Json × List Char)
  | 0, _ => none
  | fuel + 1, l =>
    match skipWs l with
    | [] => none
    | c :: rest =>
      if c = '{' then
        match skipWs rest with
        | [] => none
        | c2 :: rest2 =>
          if c2 = '}' then some (.obj [], rest2)
          else parseMembers fuel (c2 :: rest2) []
      else if c = '[' then
        match skipWs rest with
        | [] => none
        | c2 :: rest2 =>
          if c2 = ']' then some (.arr [], rest2)
          else parseElems fuel (c2 :: rest2) []
      else if c = '"' then
        (parseStringBody rest).map (fun pr => (Json.str (String.mk pr.1), pr.2))
      else if c = 'n' then
        match rest with
        | 'u' :: 'l' :: 'l' :: rest2 => some (.null, rest2)
        | _ => none
      else if c = 't' then
        match rest with
        | 'r' :: 'u' :: 'e' :: rest2 => some (.bool true, rest2)
        | _ => none
      else if c = 'f' then
        match rest with
        | 'a' :: 'l' :: 's' :: 'e' :: rest2 => some (.bool false, rest2)
        | _ => none
      else
        (parseNumber (c :: rest)).map (fun pr => (Json.int pr.1, pr.2))

def parseElems : Nat → List Char → List Json → Option (Json × List Char)
  | 0, _, _ => none
  | fuel + 1, l, acc =>
    match parseValue fuel l with
    | none => none
    | some (v, rest) =>
      match skipWs rest with
      | [] => none
      | c :: rest2 =>
        if c = ',' then parseElems fuel rest2 (acc ++ [v])
        else if c = ']' then some (.arr (acc ++ [v]), rest2)
        else none

def parseMembers : Nat → List Char → List (String × Json) →
    Option (Json × List Char)
  | 0, _, _ => none
  | fuel + 1, l, acc =>
    match l with
    | [] => none
    | c :: rest =>
      if c = '"' then
        match parseStringBody rest with
        | none => none
        | some (ks, rest2) =>
          match skipWs rest2 with
          | [] => none
          | c2 :: rest3 =>
            if c2 = ':' then
              match parseValue fuel rest3 with
              | none => none
              | some (v, rest4) =>
                match skipWs rest4 with
                | [] => none
                | c3 :: rest5 =>
                  if c3 = ',' then
                    parseMembers fuel (skipWs rest5) (objInsert acc (String.mk ks) v)
                  else if c3 = '}' then
                    some (.obj (objInsert acc (String.mk ks) v), rest5)
                  else none
            else none
      else none

end

/-- json.loads: parse one value and require only whitespace to remain. -/
def jsonLoads (s : String) : Option Json :=
  match parseValue (s.length + 1) s.data with
  | some (v, rest) => if (skipWs rest).isEmpty then some v else none
  | none => none

mutual

/-- Fuel needed by parseValue on the compact encoding of a value (a measure
used to discharge the fuel index; bounded by the encoding's length). -/
def Nfuel : Json → Nat
  | .null => 1
  | .bool _ => 1
  | .int _ => 1
  | .str _ => 1
  | .arr xs => 1 + NfuelE xs
  | .obj kvs => 1 + NfuelM kvs

def NfuelE : List Json → Nat
  | [] => 0
  | x :: xs => 1 + Nfuel x + NfuelE xs

def NfuelM : List (String × Json) → Nat
  | [] => 0
  | kv :: kvs => 1 + Nfuel kv.2 + NfuelM kvs

end

/-! ### AuditFormatter (audit.py) -/

/-- The Python exceptions that can surface in the embedded code paths.
JSONDecodeError is represented by `jsonLoads` returning none. -/
inductive PyErr where
  | typeError
  | attributeError
  | keyError
deriving DecidableEq

/-- Python `data[k]`: KeyError on a dict without the key, TypeError when
`data` is not a dict (string/int/... subscripted by a string). -/
def pyGetItem (data : Json) (k : String) : Except PyErr Json :=
  match data with
  | .obj kvs =>
    match lookupLast kvs k with
    | some v => .ok v
    | none => .error .keyError
  | _ => .error .typeError

/-- Python `data.get(k)` on a dict (None when missing); only ever reached on
values already established to be dicts. -/
def pyDictGet (data : Json) (k : String) : Json :=
  match data with
  | .obj kvs => (lookupLast kvs k).getD .null
  | _ => .null

/-- Python truthiness of a JSON-decoded value. -/
def jsonTruthy : Json → Bool
  | .null => false
  | .bool b => b
  | .int n => n ≠ 0
  | .str s => s ≠ ""
  | .arr xs => !xs.isEmpty
  | .obj kvs => !kvs.isEmpty

mutual

/-- Python str() of a JSON-decoded value, as interpolated by the formatter's
f-strings.  Containers render via repr; their exact quoting is approximated
(no claim depends on container stringification). -/
def pyStrJson : Json → String
  | .null => "None"
  | .bool true => "True"
  | .bool false => "False"
  | .int n => intToString n
  | .str s => s
  | .arr xs => "[" ++ pyReprElems xs ++ "]"
  | .obj kvs => "\x7b" ++ pyReprMembers kvs ++ "\x7d"

def pyReprJson : Json → String
  | .null => "None"
  | .bool true => "True"
  | .bool false => "False"
  | .int n => intToString n
  | .str s => "'" ++ s ++ "'"
  | .arr xs => "[" ++ pyReprElems xs ++ "]"
  | .obj kvs => "\x7b" ++ pyReprMembers kvs ++ "\x7d"

def pyReprElems : List Json → String
  | [] => ""
  | [x] => pyReprJson x
  | x :: y :: xs => pyReprJson x ++ ", " ++ pyReprElems (y :: xs)

def pyReprMembers : List (String × Json) → String
  | [] => ""
  | [(k, v)] => "'" ++ k ++ "': " ++ pyReprJson v
  | (k, v) :: m :: rest =>
    "'" ++ k ++ "': " ++ pyReprJson v ++ ", " ++ pyReprMembers (m :: rest)

end

/-- Python `'; '.join(parts)` and friends. -/
def joinSep (sep : String) : List String → String
  | [] => ""
  | [x] => x
  | x :: y :: xs => x ++ sep ++ joinSep sep (y :: xs)

/-- Python `value == 'SOMESTR'` on a JSON-decoded value. -/
def Json.isStrEq : Json → String → Bool
  | .str s, t => s = t
  | _, _ => false

/-- The `for field, change in data['changes'].items()` loop body:
`change.get('old', 'None')` requires each change to be a dict, else
AttributeError (uncaught in the source). -/
def formatChanges : List (String × Json) → Except PyErr (List String)
  | [] => .ok []
  | kv :: tl =>
    match kv.2 with
    | .obj m =>
      (formatChanges tl).map (fun rest =>
        (kv.1 ++ ": " ++ pyStrJson ((lookupLast m "old").getD (.str "None"))
         ++ " -> " ++ pyStrJson ((lookupLast m "new").getD (.str "None"))) :: rest)
    | _ => .error .attributeError

/-- The `| Changes: ...` suffix for UPDATE entries with truthy changes. -/
def changesSuffix (data : Json) : Except PyErr String :=
  if (pyDictGet data "action").isStrEq "UPDATE" && jsonTruthy (pyDictGet data "changes")
  then
    match pyDictGet data "changes" with
    | .obj chs => do
      let parts ← formatChanges chs
      pure (if parts.isEmpty then "" else " | Changes: " ++ joinSep "; " parts)
    | _ => .error .attributeError
  else pure ""

/-- The `| Info: ...` suffix for entries with truthy additional_info.
`data['additional_info'].items()` requires a dict, else AttributeError. -/
def infoSuffix (data : Json) : Except PyErr String :=
  if jsonTruthy (pyDictGet data "additional_info") then
    match pyDictGet data "additional_info" with
    | .obj infos =>
      let parts := infos.map (fun kv => kv.1 ++ ": " ++ pyStrJson kv.2)
      pure (if parts.isEmpty then "" else " | Info: " ++ joinSep "; " parts)
    | _ => .error .attributeError
  else pure ""

/-- The try-block body of AuditFormatter.format, after a successful
json.loads: six required-field subscripts (KeyError propagates to the
handler), the human-readable message, the optional Changes and Info
segments, and the re-dumped JSON appended after the `| JSON: ` marker. -/
def formatRecordBody (data : Json) : Except PyErr String := do
  let timestamp ← pyGetItem data "timestamp"
  let action ← pyGetItem data "action"
  let model ← pyGetItem data "model"
  let object_id ← pyGetItem data "object_id"
  let _object_str ← pyGetItem data "object_str"
  let user ← pyGetItem data "user"
  let base := "[" ++ pyStrJson timestamp ++ "] " ++ pyStrJson action ++ " "
      ++ pyStrJson model ++ "#" ++ pyStrJson object_id ++ " by " ++ pyStrJson user
      ++ ": " ++ pyStrJson _object_str
  let chs ← changesSuffix data
  let info ← infoSuffix data
  pure (base ++ chs ++ info ++ " | JSON: " ++ dumps data)

/-- The fallback line for malformed entries. -/
def auditErrorLine (now message : String) : String :=
  "[" ++ now ++ "] AUDIT_ERROR: " ++ message

/-- AuditFormatter.format: decode the record's message; JSONDecodeError and
KeyError fall back to the AUDIT_ERROR line; any other exception of the body
(TypeError, AttributeError) propagates.  `now` stands for datetime.now()
formatted at fallback time. -/
def formatRecord (now message : String) : Except PyErr String :=
  match jsonLoads message with
  | none => .ok (auditErrorLine now message)
  | some data =>
    match formatRecordBody data with
    | .ok m => .ok m
    | .error .keyError => .ok (auditErrorLine now message)
    | .error e => .error e

/-! ### The JSON encoding of an audit entry (log_change's json.dumps) -/

def pyValToJson : PyVal → Json
  | .pnone => .null
  | .pbool b => .bool b
  | .pint n => .int n
  | .pstr s => .str s

def changesToJson (changes : List ChangeEntry) : Json :=
  .obj (changes.map (fun c =>
    (c.1, Json.obj [("old", .str c.2.1), ("new", .str c.2.2)])))

def infoToJson (info : List (String × PyVal)) : Json :=
  .obj (info.map (fun p => (p.1, pyValToJson p.2)))

/-- The dict literal built in AuditLogger.log_change, in source order. -/
def eventToJson (e : AuditEvent) : Json :=
  .obj [("timestamp", .str e.timestamp), ("action", .str e.action),
        ("model", .str e.model), ("object_id", .str e.object_id),
        ("object_str", .str e.object_str), ("user", .str e.user),
        ("user_id", match e.user_id with | some i => .int i | none => .null),
        ("changes", changesToJson e.changes),
        ("additional_info", infoToJson e.additional_info)]

/-- The message string handed to the logging framework by log_change, i.e.
json.dumps(audit_entry, separators=(',', ':')). -/
def eventMessage (e : AuditEvent) : String := dumps (eventToJson e)

/-- Keys pairwise distinct (Python dicts cannot carry duplicate keys). -/
def distinctKeys : List String → Bool
  | [] => true
  | k :: ks => !ks.any (fun x => x = k) && distinctKeys ks

mutual

/-- Well-formedness of a JSON value as an image of Python data: every object
has pairwise-distinct keys (json.loads collapses duplicates, so only such
values round-trip). -/
def jsonWF : Json → Bool
  | .null => true
  | .bool _ => true
  | .int _ => true
  | .str _ => true
  | .arr xs => jsonWFList xs
  | .obj kvs => distinctKeys (kvs.map Prod.fst) && jsonWFMembers kvs

def jsonWFList : List Json → Bool
  | [] => true
  | x :: xs => jsonWF x && jsonWFList xs

def jsonWFMembers : List (String × Json) → Bool
  | [] => true
  | kv :: kvs => jsonWF kv.2 && jsonWFMembers kvs

end

/-! ### view_audit_logs.py: parse_log_entry and filter_entry -/

/-- Python str.rfind scanning: the largest index i ≤ start at which `pat`
occurs in `l`. -/
def rfindFrom (l pat : List Char) : Nat → Option Nat
  | 0 => if pat.isPrefixOf l then some 0 else none
  | i + 1 => if pat.isPrefixOf (l.drop (i + 1)) then some (i + 1)
             else rfindFrom l pat i

/-- Python `line.rfind(pat)` (None for -1). -/
def rfindSub (l pat : List Char) : Option Nat := rfindFrom l pat l.length

/-- Python str.strip(): drop leading and trailing whitespace. -/
def isPySpace (c : Char) : Bool :=
  c = ' ' || c = '\t' || c = '\n' || c = '\r' || c = Char.ofNat 11 || c = Char.ofNat 12

def stripChars (l : List Char) : List Char :=
  ((l.dropWhile isPySpace).reverse.dropWhile isPySpace).reverse

/-- parse_log_entry: locate the last occurrence of `| JSON: `, decode the
JSON after it; None when the marker is absent or decoding fails. -/
def parse_log_entry (line : String) : Option Json :=
  match rfindSub line.data ['|', ' ', 'J', 'S', 'O', 'N', ':', ' '] with
  | none => none
  | some i => jsonLoads (String.mk (stripChars (line.data.drop (i + 8))))

/-- A parsed timestamp (naive datetime down to seconds). -/
structure PyDateTime where
  year : Nat
  month : Nat
  day : Nat
  hour : Nat
  minute : Nat
  second : Nat
deriving DecidableEq

/-- Python datetime comparison: lexicographic on the six components. -/
def dtLt (a b : PyDateTime) : Bool :=
  if a.year ≠ b.year then a.year < b.year
  else if a.month ≠ b.month then a.month < b.month
  else if a.day ≠ b.day then a.day < b.day
  else if a.hour ≠ b.hour then a.hour < b.hour
  else if a.minute ≠ b.minute then a.minute < b.minute
  else a.second < b.second

/-- Exactly four decimal digits (the %Y directive). -/
def parse4Digits (l : List Char) : Option (Nat × List Char) :=
  match l with
  | a :: b :: c :: d :: rest =>
    if a.isDigit && b.isDigit && c.isDigit && d.isDigit then
      some ((((a.toNat - 48) * 10 + (b.toNat - 48)) * 10 + (c.toNat - 48)) * 10
            + (d.toNat - 48), rest)
    else none
  | _ => none

/-- A one-or-two-digit field with per-width valid ranges, matching the
ordered regex alternations strptime compiles for %m/%d/%H/%M/%S (two digits
preferred; the separators of this format are non-digits, so the local greedy
choice agrees with the regex's backtracking). -/
def parse12 (validTwo validOne : Nat → Bool) (l : List Char) :
    Option (Nat × List Char) :=
  match l with
  | [] => none
  | [a] =>
    if a.isDigit && validOne (a.toNat - 48) then some (a.toNat - 48, []) else none
  | a :: b :: rest =>
    if a.isDigit && b.isDigit && validTwo ((a.toNat - 48) * 10 + (b.toNat - 48)) then
      some ((a.toNat - 48) * 10 + (b.toNat - 48), rest)
    else if a.isDigit && validOne (a.toNat - 48) then some (a.toNat - 48, b :: rest)
    else none

def expectChar (c : Char) (l : List Char) : Option (List Char) :=
  match l with
  | [] => none
  | x :: rest => if x = c then some rest else none

def isLeapYear (y : Nat) : Bool := (y % 4 = 0 && y % 100 ≠ 0) || y % 400 = 0

def daysInMonth (y m : Nat) : Nat :=
  if m = 2 then (if isLeapYear y then 29 else 28)
  else if m = 4 || m = 6 || m = 9 || m = 11 then 30
  else 31

/-- datetime.strptime(s, '%Y-%m-%d %H:%M:%S'): field-wise scan per the
compiled regex, full-string match required, then datetime() construction
validates year ≥ 1 and the day against the month (leap years included).
Range-invalid or trailing input yields None (a ValueError in Python). -/
def strptimeYmdHMS (s : String) : Option PyDateTime := do
  let (y, r1) ← parse4Digits s.data
  let r2 ← expectChar '-' r1
  let (mo, r3) ← parse12 (fun v => 1 ≤ v && v ≤ 12) (fun v => 1 ≤ v && v ≤ 9) r2
  let r4 ← expectChar '-' r3
  let (d, r5) ← parse12 (fun v => 1 ≤ v && v ≤ 31) (fun v => 1 ≤ v && v ≤ 9) r4
  let r6 ← expectChar ' ' r5
  let (h, r7) ← parse12 (fun v => v ≤ 23) (fun v => v ≤ 9) r6
  let r8 ← expectChar ':' r7
  let (mi, r9) ← parse12 (fun v => v ≤ 59) (fun v => v ≤ 9) r8
  let r10 ← expectChar ':' r9
  let (se, r11) ← parse12 (fun v => v ≤ 59) (fun v => v ≤ 9) r10
  if r11.isEmpty && 1 ≤ y && 1 ≤ d && d ≤ daysInMonth y mo then
    some ⟨y, mo, d, h, mi, se⟩
  else none

/-- Python `entry.get(k, '')` in filter_entry: AttributeError when the entry
is not a dict. -/
def pyObjGet (entry : Json) (k : String) (dflt : Json) : Except PyErr Json :=
  match entry with
  | .obj kvs => .ok ((lookupLast kvs k).getD dflt)
  | _ => .error .attributeError

/-- Python `.lower()`: AttributeError on a non-string. -/
def pyLowerJ (v : Json) : Except PyErr String :=
  match v with
  | .str s => .ok (pyLower s)
  | _ => .error .attributeError

/-- The user filter clause: active when the filter is a truthy string;
case-insensitive exact match on `entry.get('user', '')`. -/
def userPasses (entry : Json) (fu : Option String) : Except PyErr Bool :=
  match fu with
  | none => .ok true
  | some u =>
    if u = "" then .ok true
    else do
      let ev ← pyObjGet entry "user" (.str "")
      let el ← pyLowerJ ev
      pure (el = pyLower u)

/-- The action filter clause: case-insensitive exact match. -/
def actionPasses (entry : Json) (fa : Option String) : Except PyErr Bool :=
  match fa with
  | none => .ok true
  | some a =>
    if a = "" then .ok true
    else do
      let ev ← pyObjGet entry "action" (.str "")
      let el ← pyLowerJ ev
      pure (el = pyLower a)

/-- The model filter clause: case-insensitive substring containment. -/
def modelPasses (entry : Json) (fm : Option String) : Except PyErr Bool :=
  match fm with
  | none => .ok true
  | some m =>
    if m = "" then .ok true
    else do
      let ev ← pyObjGet entry "model" (.str "")
      let el ← pyLowerJ ev
      pure (containsSub el.data (pyLower m).data)

/-- The since filter clause: strptime the entry timestamp; a ValueError
passes (fail open); an entry strictly earlier than the bound is excluded.
strptime on a non-string raises TypeError (uncaught in the source). -/
def sincePasses (entry : Json) (fs : Option PyDateTime) : Except PyErr Bool :=
  match fs with
  | none => .ok true
  | some since => do
    let tv ← pyObjGet entry "timestamp" (.str "")
    match tv with
    | .str ts =>
      match strptimeYmdHMS ts with
      | some t => pure (!dtLt t since)
      | none => pure true
    | _ => .error .typeError

/-- The string stored at key `k` of a parsed entry, with the parser's default
`''` for a missing key (specification-side accessor for stating filter
semantics over entries whose filterable fields are strings). -/
def jstrAt (kvs : List (String × Json)) (k : String) : String :=
  match (lookupLast kvs k).getD (.str "") with
  | .str s => s
  | _ => ""

/-- filter_entry: false for a falsy entry, then the four clauses in source
order, each returning False early on a mismatch. -/
def filter_entry (entry : Json) (fu fa fm : Option String)
    (fs : Option PyDateTime) : Except PyErr Bool := do
  if !jsonTruthy entry then return false
  let u ← userPasses entry fu
  if !u then return false
  let a ← actionPasses entry fa
  if !a then return false
  let m ← modelPasses entry fm
  if !m then return false
  let s ← sincePasses entry fs
  if !s then return false
  return true

/-! ### Concrete sample data used by witness theorems -/

def c1Field : Field := ⟨"flag", false, true, [], fun _ => none⟩

def c1Entity : Entity :=
  ⟨[c1Field], fun n => if n = "flag" then some (.plain (.pbool true)) else none,
   some [("flag", .pbool false)], true, .pint 1, "E1", "inventory.E"⟩

def c2Entity : Entity :=
  ⟨[⟨"name", false, false, [], fun _ => none⟩],
   fun n => if n = "name" then some (.plain (.pstr "x")) else none,
   some [("name", .pstr "x")], true, .pint 1, "E2", "inventory.E"⟩

def c10Entity : Entity :=
  ⟨[⟨"name", false, false, [], fun _ => none⟩],
   fun n => if n = "name" then some (.plain (.pstr "x")) else none,
   none, true, .pint 1, "E3", "inventory.E"⟩

def sampleSender : ModelClass := ⟨"inventory", "Application"⟩

def c7BoolField : Field := ⟨"is_active", false, true, [], fun _ => none⟩

def c6PlainField : Field := ⟨"description", false, false, [], fun _ => none⟩

def s101 : String := String.mk (List.replicate 101 'a')

def s100 : String := String.mk (List.replicate 100 'a')

end EamAudit

namespace EamAudit

/-! ### Helper lemmas -/

theorem filter_name_filterMap {β : Type} (g : Field → Option (String × β))
    (hg : ∀ fl x, g fl = some x → x.1 = fl.name) :
    ∀ (fields : List Field), (fields.map Field.name).Nodup →
      ∀ f ∈ fields,
        (fields.filterMap g).filter (fun c => c.1 = f.name) = (g f).toList := by
  intro fields
  induction fields with
  | nil => intro _ f hf; cases hf
  | cons hd tl ih =>
    intro hnd f hf
    rw [List.map_cons, List.nodup_cons] at hnd
    obtain ⟨hhd, htl⟩ := hnd
    rw [List.filterMap_cons]
    rcases List.mem_cons.mp hf with hf | hf
    · subst hf
      have htlfilter : (tl.filterMap g).filter (fun c => c.1 = f.name) = [] := by
        rw [List.filter_eq_nil_iff]
        intro c hc
        obtain ⟨fl, hfl, hgl⟩ := List.mem_filterMap.mp hc
        have hc1 := hg fl c hgl
        simp only [decide_eq_true_eq]
        intro hEq
        exact hhd (by rw [← hEq, hc1]; exact List.mem_map_of_mem Field.name hfl)
      cases hgd : g f with
      | none => simpa [hgd] using htlfilter
      | some x =>
        have hx := hg f x hgd
        simp [List.filter_cons, hx, htlfilter]
    · have hne : hd.name ≠ f.name := by
        intro hEq
        exact hhd (hEq ▸ List.mem_map_of_mem Field.name hf)
      cases hgd : g hd with
      | none => simpa using ih htl f hf
      | some x =>
        have hx := hg hd x hgd
        rw [List.filter_cons]
        simp only [hx, hne, decide_eq_true_eq, if_neg hne]
        exact ih htl f hf

/-! ### Claim theorems -/

/-- C1: with a captured snapshot and distinct field names, get_field_changes
returns no entry for a field whose normalized current value equals its
snapshot value, and exactly one entry — carrying the display-formatted old
and new values — for a field whose normalized values differ. -/
theorem c1_change_detector_diff (e : Entity) (orig : List (String × PyVal))
    (horig : e.originalValues = some orig)
    (hnd : (e.fields.map Field.name).Nodup)
    (f : Field) (hf : f ∈ e.fields) (raw : RawValue)
    (hattr : e.attrs f.name = some raw) :
    (raw.toComparable = (lookupLast orig f.name).getD .pnone →
      (get_field_changes e).filter (fun c => c.1 = f.name) = []) ∧
    (raw.toComparable ≠ (lookupLast orig f.name).getD .pnone →
      (get_field_changes e).filter (fun c => c.1 = f.name) =
        [(f.name, format_field_value f ((lookupLast orig f.name).getD .pnone),
          format_field_value f raw.toComparable)]) := by
  have hgfc : get_field_changes e =
      e.fields.filterMap (fun field =>
        match e.attrs field.name with
        | none => none
        | some raw =>
          if raw.toComparable ≠ (lookupLast orig field.name).getD .pnone then
            some (field.name, format_field_value field ((lookupLast orig field.name).getD .pnone),
                  format_field_value field raw.toComparable)
          else none) := by
    rw [get_field_changes, horig]
  have hg : ∀ fl (x : String × String × String),
      (fun field =>
        match e.attrs field.name with
        | none => none
        | some raw =>
          if raw.toComparable ≠ (lookupLast orig field.name).getD .pnone then
            some (field.name, format_field_value field ((lookupLast orig field.name).getD .pnone),
                  format_field_value field raw.toComparable)
          else none) fl = some x → x.1 = fl.name := by
    intro fl x hx
    simp only at hx
    cases h : e.attrs fl.name with
    | none => rw [h] at hx; cases hx
    | some r =>
      rw [h] at hx
      dsimp only at hx
      by_cases hcmp : r.toComparable ≠ (lookupLast orig fl.name).getD .pnone
      · rw [if_pos hcmp] at hx
        cases hx
        rfl
      · rw [if_neg hcmp] at hx
        cases hx
  have hmain := filter_name_filterMap _ hg e.fields hnd f hf
  rw [hgfc]
  constructor
  · intro hEq
    rw [hmain, hattr]
    simp [hEq]
  · intro hNe
    rw [hmain, hattr]
    simp only [ne_eq, hNe, not_false_eq_true, if_pos, Option.toList_some]

/-- C1 witness: a boolean field flipping from False to True yields exactly
one entry with display values "False" and "True". -/
theorem c1_change_detector_diff_witness :
    (get_field_changes c1Entity).filter (fun c => c.1 = "flag") =
      [("flag", format_field_value c1Field (.pbool false),
        format_field_value c1Field (.pbool true))] := by
  have h := c1_change_detector_diff c1Entity [("flag", .pbool false)] rfl
    (by decide) c1Field (List.mem_singleton.mpr rfl) (.plain (.pbool true)) rfl
  exact h.2 (by decide)

/-- C2: an event emitted by the post-save or post-delete interceptor has
empty changes unless its action is UPDATE; an UPDATE event carries exactly
the non-empty computed diff; and a non-create save whose computed diff is
empty emits no event at all. -/
theorem c2_update_only_changes (now : String) (ctxUser : Option PyUser)
    (sender : ModelClass) (e : Entity) (created : Bool) :
    (∀ ev ∈ (audit_post_save now ctxUser sender e created).1,
       (ev.action ≠ "UPDATE" → ev.changes = []) ∧
       (ev.action = "UPDATE" → ev.changes = get_field_changes e ∧ ev.changes ≠ [])) ∧
    (created = false → get_field_changes e = [] →
       (audit_post_save now ctxUser sender e created).1 = []) ∧
    (∀ ev ∈ audit_post_delete now ctxUser sender e,
       ev.action = "DELETE" ∧ ev.changes = []) := by
  refine ⟨?_, ?_, ?_⟩
  · intro ev hev
    rw [audit_post_save] at hev
    by_cases hskip : should_skip_audit sender
    · simp [hskip] at hev
    · simp only [hskip, if_false, Bool.false_eq_true] at hev
      by_cases hcr : created
      · simp only [hcr, if_true] at hev
        rw [List.mem_singleton] at hev
        subst hev
        constructor
        · intro _; rfl
        · intro hupd
          have hca : ("CREATE" : String) = "UPDATE" := hupd
          exact absurd hca (by decide)
      · simp only [hcr, if_false, Bool.false_eq_true] at hev
        by_cases hmix : e.hasAuditMixin
        · simp only [hmix, if_true] at hev
          by_cases hempty : (get_field_changes e).isEmpty
          · simp [hempty] at hev
          · simp only [hempty, if_false, Bool.false_eq_true] at hev
            rw [List.mem_singleton] at hev
            subst hev
            constructor
            · intro hne; exact absurd rfl hne
            · intro _
              refine ⟨rfl, ?_⟩
              intro hnil
              rw [show (log_update now ctxUser e (get_field_changes e) none).changes
                    = get_field_changes e from rfl] at hnil
              rw [hnil] at hempty
              exact hempty rfl
        · simp [hmix] at hev
  · intro hcr hchg
    rw [audit_post_save]
    by_cases hskip : should_skip_audit sender
    · simp [hskip]
    · simp [hskip, hcr, hchg]
  · intro ev hev
    rw [audit_post_delete] at hev
    by_cases hskip : should_skip_audit sender
    · simp [hskip] at hev
    · simp only [hskip, if_false, Bool.false_eq_true] at hev
      rw [List.mem_singleton] at hev
      subst hev
      exact ⟨rfl, rfl⟩

/-- C2 witness: a save of an entity whose every field normalizes equal to its
snapshot emits zero events. -/
theorem c2_update_only_changes_witness :
    (audit_post_save "2024-01-01 00:00:00" none sampleSender c2Entity false).1 = [] :=
  (c2_update_only_changes "2024-01-01 00:00:00" none sampleSender c2Entity false).2.1
    rfl (by decide)

/-- C3: log_change resolves the actor from the explicit argument first, then
from the thread-local context; absent both it uses the sentinel "SYSTEM"
with null user_id; a resolved actor contributes its username and id. -/
theorem c3_actor_resolution (now : String) (ctxUser : Option PyUser)
    (action model_name : String) (object_id : PyVal) (object_str : String)
    (changes : Option (List ChangeEntry)) (user : Option PyUser)
    (additional_info : Option (List (String × PyVal))) :
    (user = none → ctxUser = none →
      (log_change now ctxUser action model_name object_id object_str changes user
        additional_info).user = "SYSTEM" ∧
      (log_change now ctxUser action model_name object_id object_str changes user
        additional_info).user_id = none) ∧
    (∀ u, user = some u →
      (log_change now ctxUser action model_name object_id object_str changes user
        additional_info).user = u.username ∧
      (log_change now ctxUser action model_name object_id object_str changes user
        additional_info).user_id = some u.id) ∧
    (∀ u, user = none → ctxUser = some u →
      (log_change now ctxUser action model_name object_id object_str changes user
        additional_info).user = u.username ∧
      (log_change now ctxUser action model_name object_id object_str changes user
        additional_info).user_id = some u.id) := by
  refine ⟨?_, ?_, ?_⟩
  · intro hu hc
    subst hu; subst hc
    exact ⟨rfl, rfl⟩
  · intro u hu
    subst hu
    exact ⟨rfl, rfl⟩
  · intro u hu hc
    subst hu; subst hc
    exact ⟨rfl, rfl⟩

/-- C3 witness: with no explicit user and no context user the built event has
the SYSTEM sentinel and a null user_id. -/
theorem c3_actor_resolution_witness :
    (log_change "2024-01-01 00:00:00" none "DELETE" "inventory.Application"
      (.pint 7) "My App" none none none).user = "SYSTEM" ∧
    (log_change "2024-01-01 00:00:00" none "DELETE" "inventory.Application"
      (.pint 7) "My App" none none none).user_id = none :=
  (c3_actor_resolution "2024-01-01 00:00:00" none "DELETE" "inventory.Application"
    (.pint 7) "My App" none none none).1 rfl rfl

/-- C6: for a non-relation, non-boolean, non-choice field, a non-null value
is string-converted and truncated exactly when longer than 100 characters;
at the boundary, a 101-character string becomes its first 97 characters plus
an ellipsis and a 100-character string is unchanged. -/
theorem c6_truncation_boundary (f : Field) (hfk : f.isForeignKey = false)
    (hb : f.isBooleanField = false) (hc : f.choices = []) :
    (∀ v : PyVal, v ≠ .pnone →
       format_field_value f v =
         (if v.pyStr.length > 100 then v.pyStr.take 97 ++ "..." else v.pyStr)) ∧
    (∀ s : String, s.length = 101 →
       format_field_value f (.pstr s) = s.take 97 ++ "...") ∧
    (∀ s : String, s.length = 100 → format_field_value f (.pstr s) = s) := by
  have hbase : ∀ v : PyVal, v ≠ .pnone →
      format_field_value f v =
        (if v.pyStr.length > 100 then v.pyStr.take 97 ++ "..." else v.pyStr) := by
    intro v hv
    rw [format_field_value, if_neg hv, hfk, hb, hc]
    simp
  refine ⟨hbase, ?_, ?_⟩
  · intro s hs
    rw [hbase (.pstr s) (by intro h; cases h)]
    simp only [PyVal.pyStr, hs]
    norm_num
  · intro s hs
    rw [hbase (.pstr s) (by intro h; cases h)]
    simp only [PyVal.pyStr, hs]
    norm_num

/-- C6 witness: the truncation boundary at concrete strings of length 101
and 100. -/
theorem c6_truncation_boundary_witness :
    format_field_value c6PlainField (.pstr s101) = s101.take 97 ++ "..." ∧
    format_field_value c6PlainField (.pstr s100) = s100 := by
  have h := c6_truncation_boundary c6PlainField rfl rfl rfl
  exact ⟨h.2.1 s101 (by decide), h.2.2 s100 (by decide)⟩

/-- C7 counterexample: the claim predicts the boolean rule beats the null
rule, i.e. a boolean field holding null would render as "False"; the code
renders it as "NULL". -/
theorem c7_rule_order_counterexample :
    format_field_value c7BoolField .pnone = "NULL" ∧
    format_field_value c7BoolField .pnone ≠ "False" := by
  exact ⟨rfl, by decide⟩

/-- C7 (amended): the null rule has top priority — null renders as "NULL"
whatever the field type, so for a boolean field null wins over the boolean
rule; for non-null values the remaining rules apply in order: relation (for
truthy values), boolean (no choices hypothesis: boolean beats choice),
choice, string conversion. -/
theorem c7_rule_order_amended (f : Field) (v : PyVal) :
    (format_field_value f .pnone = "NULL") ∧
    (v ≠ .pnone → f.isForeignKey = true → v.truthy = true →
       format_field_value f v = (match f.relatedLookup v with
         | some objStr => v.pyStr ++ " (" ++ objStr ++ ")"
         | none => v.pyStr)) ∧
    (v ≠ .pnone → f.isForeignKey = false → f.isBooleanField = true →
       format_field_value f v = (if v.truthy then "True" else "False")) ∧
    (v ≠ .pnone → f.isForeignKey = false → f.isBooleanField = false →
       f.choices ≠ [] →
       format_field_value f v =
         v.pyStr ++ " (" ++ (lookupLast f.choices v).getD "Unknown" ++ ")") := by
  refine ⟨rfl, ?_, ?_, ?_⟩
  · intro hv hfk htr
    rw [format_field_value, if_neg hv, hfk, htr]
    simp
  · intro hv hfk hbool
    rw [format_field_value, if_neg hv, hfk, hbool]
    simp
  · intro hv hfk hbool hch
    rw [format_field_value, if_neg hv, hfk, hbool]
    have : f.choices.isEmpty = false := by
      cases hl : f.choices with
      | nil => exact absurd hl hch
      | cons a l => rfl
    simp [this]

/-- C7 witness: a boolean field that also carries choices still renders a
non-null value through the boolean rule. -/
theorem c7_rule_order_amended_witness :
    format_field_value ⟨"b", false, true, [(.pstr "x", "X")], fun _ => none⟩
      (.pbool true) = "True" :=
  (c7_rule_order_amended ⟨"b", false, true, [(.pstr "x", "X")], fun _ => none⟩
    (.pbool true)).2.2.1 (by intro h; cases h) rfl rfl

/-- C9: whatever the inbound request, the handler's behavior and its outcome
(normal response or raised exception), the middleware leaves the thread's
actor context cleared at the end of the unit of work. -/
theorem c9_actor_cleared_on_exit (ctx : ActorContext) (req : HttpRequest)
    (handler : ActorContext → ActorContext × Outcome) :
    get_current_user (run_unit_of_work ctx req handler) = none := by
  rw [run_unit_of_work]
  cases (handler (process_request ctx req)).2 <;> rfl

/-- C10: an entity instance with no captured snapshot yields an empty diff,
and a non-create save of it emits no event at all. -/
theorem c10_missing_snapshot (e : Entity) (h : e.originalValues = none)
    (now : String) (ctxUser : Option PyUser) (sender : ModelClass) :
    get_field_changes e = [] ∧
    (audit_post_save now ctxUser sender e false).1 = [] := by
  have hgfc : get_field_changes e = [] := by rw [get_field_changes, h]
  refine ⟨hgfc, ?_⟩
  rw [audit_post_save]
  by_cases hskip : should_skip_audit sender
  · simp [hskip]
  · simp [hskip, hgfc]

/-- C10 witness: a concrete mixin instance lacking _original_values. -/
theorem c10_missing_snapshot_witness :
    get_field_changes c10Entity = [] ∧
    (audit_post_save "2024-01-01 00:00:00" none sampleSender c10Entity false).1 = [] :=
  c10_missing_snapshot c10Entity rfl "2024-01-01 00:00:00" none sampleSender

/-! ### Filter clause lemmas (towards C8) -/

theorem userPasses_spec (kvs : List (String × Json)) (fu : Option String)
    (hu : ∀ u, fu = some u → u ≠ "" →
      ∃ s, (lookupLast kvs "user").getD (.str "") = Json.str s) :
    ∃ b, userPasses (.obj kvs) fu = .ok b ∧
      (b = true ↔ ∀ u, fu = some u → u ≠ "" →
        pyLower (jstrAt kvs "user") = pyLower u) := by
  cases fu with
  | none =>
    refine ⟨true, rfl, ?_⟩
    simp
  | some u =>
    by_cases hue : u = ""
    · subst hue
      refine ⟨true, by simp [userPasses], ?_⟩
      constructor
      · intro _ u' heq hne
        cases heq
        exact absurd rfl hne
      · intro _; rfl
    · obtain ⟨s, hs⟩ := hu u rfl hue
      have hjs : jstrAt kvs "user" = s := by rw [jstrAt, hs]
      refine ⟨decide (pyLower s = pyLower u), ?_, ?_⟩
      · simp only [userPasses, hue, if_false, pyObjGet, hs, pyLowerJ, Bind.bind,
          Except.bind, pure, Except.pure]
      · constructor
        · intro hb u' heq _
          cases heq
          rw [hjs]
          exact of_decide_eq_true hb
        · intro hall
          exact decide_eq_true (hjs ▸ hall u rfl hue)

theorem actionPasses_spec (kvs : List (String × Json)) (fa : Option String)
    (ha : ∀ a, fa = some a → a ≠ "" →
      ∃ s, (lookupLast kvs "action").getD (.str "") = Json.str s) :
    ∃ b, actionPasses (.obj kvs) fa = .ok b ∧
      (b = true ↔ ∀ a, fa = some a → a ≠ "" →
        pyLower (jstrAt kvs "action") = pyLower a) := by
  cases fa with
  | none =>
    refine ⟨true, rfl, ?_⟩
    simp
  | some a =>
    by_cases hae : a = ""
    · subst hae
      refine ⟨true, by simp [actionPasses], ?_⟩
      constructor
      · intro _ a' heq hne
        cases heq
        exact absurd rfl hne
      · intro _; rfl
    · obtain ⟨s, hs⟩ := ha a rfl hae
      have hjs : jstrAt kvs "action" = s := by rw [jstrAt, hs]
      refine ⟨decide (pyLower s = pyLower a), ?_, ?_⟩
      · simp only [actionPasses, hae, if_false, pyObjGet, hs, pyLowerJ, Bind.bind,
          Except.bind, pure, Except.pure]
      · constructor
        · intro hb a' heq _
          cases heq
          rw [hjs]
          exact of_decide_eq_true hb
        · intro hall
          exact decide_eq_true (hjs ▸ hall a rfl hae)

theorem modelPasses_spec (kvs : List (String × Json)) (fm : Option String)
    (hm : ∀ m, fm = some m → m ≠ "" →
      ∃ s, (lookupLast kvs "model").getD (.str "") = Json.str s) :
    ∃ b, modelPasses (.obj kvs) fm = .ok b ∧
      (b = true ↔ ∀ m, fm = some m → m ≠ "" →
        containsSub (pyLower (jstrAt kvs "model")).data (pyLower m).data = true) := by
  cases fm with
  | none =>
    refine ⟨true, rfl, ?_⟩
    simp
  | some m =>
    by_cases hme : m = ""
    · subst hme
      refine ⟨true, by simp [modelPasses], ?_⟩
      constructor
      · intro _ m' heq hne
        cases heq
        exact absurd rfl hne
      · intro _; rfl
    · obtain ⟨s, hs⟩ := hm m rfl hme
      have hjs : jstrAt kvs "model" = s := by rw [jstrAt, hs]
      refine ⟨containsSub (pyLower s).data (pyLower m).data, ?_, ?_⟩
      · simp only [modelPasses, hme, if_false, pyObjGet, hs, pyLowerJ, Bind.bind,
          Except.bind, pure, Except.pure]
      · constructor
        · intro hb m' heq _
          cases heq
          rw [hjs]
          exact hb
        · intro hall
          exact hjs ▸ hall m rfl hme

theorem sincePasses_spec (kvs : List (String × Json)) (fs : Option PyDateTime)
    (ht : ∀ d, fs = some d →
      ∃ s, (lookupLast kvs "timestamp").getD (.str "") = Json.str s) :
    ∃ b, sincePasses (.obj kvs) fs = .ok b ∧
      (b = true ↔ ∀ d, fs = some d →
        ∀ t, strptimeYmdHMS (jstrAt kvs "timestamp") = some t → dtLt t d = false) := by
  cases fs with
  | none =>
    refine ⟨true, rfl, ?_⟩
    simp
  | some d =>
    obtain ⟨s, hs⟩ := ht d rfl
    have hjs : jstrAt kvs "timestamp" = s := by rw [jstrAt, hs]
    cases hst : strptimeYmdHMS s with
    | none =>
      refine ⟨true, ?_, ?_⟩
      · simp only [sincePasses, pyObjGet, hs, Bind.bind, Except.bind, hst, pure,
          Except.pure]
      · constructor
        · intro _ d' heq t hts
          rw [hjs, hst] at hts
          cases hts
        · intro _; rfl
    | some t =>
      refine ⟨!dtLt t d, ?_, ?_⟩
      · simp only [sincePasses, pyObjGet, hs, Bind.bind, Except.bind, hst, pure,
          Except.pure]
      · constructor
        · intro hb d' heq t' hts
          cases heq
          rw [hjs, hst] at hts
          cases hts
          simpa using hb
        · intro hall
          have := hall d rfl t (by rw [hjs, hst])
          simp [this]

/-- C8: on a parsed entry (a non-empty JSON object whose filterable fields
are strings where a filter applies), filter_entry raises nothing and the
result is the conjunction of: case-insensitive exact match on actor,
case-insensitive exact match on action, case-insensitive substring match on
entity type, and the inclusive lower time bound which excludes only entries
that parse to a strictly earlier timestamp (an unparseable timestamp never
excludes). -/
theorem c8_filter_semantics (kvs : List (String × Json)) (fu fa fm : Option String)
    (fs : Option PyDateTime) (hne : kvs ≠ [])
    (hu : ∀ u, fu = some u → u ≠ "" →
      ∃ s, (lookupLast kvs "user").getD (.str "") = Json.str s)
    (ha : ∀ a, fa = some a → a ≠ "" →
      ∃ s, (lookupLast kvs "action").getD (.str "") = Json.str s)
    (hm : ∀ m, fm = some m → m ≠ "" →
      ∃ s, (lookupLast kvs "model").getD (.str "") = Json.str s)
    (ht : ∀ d, fs = some d →
      ∃ s, (lookupLast kvs "timestamp").getD (.str "") = Json.str s) :
    ∃ b, filter_entry (.obj kvs) fu fa fm fs = .ok b ∧
      (b = true ↔
        ((∀ u, fu = some u → u ≠ "" →
            pyLower (jstrAt kvs "user") = pyLower u) ∧
         (∀ a, fa = some a → a ≠ "" →
            pyLower (jstrAt kvs "action") = pyLower a) ∧
         (∀ m, fm = some m → m ≠ "" →
            containsSub (pyLower (jstrAt kvs "model")).data (pyLower m).data = true) ∧
         (∀ d, fs = some d → ∀ t,
            strptimeYmdHMS (jstrAt kvs "timestamp") = some t → dtLt t d = false))) := by
  obtain ⟨b1, hb1, hiff1⟩ := userPasses_spec kvs fu hu
  obtain ⟨b2, hb2, hiff2⟩ := actionPasses_spec kvs fa ha
  obtain ⟨b3, hb3, hiff3⟩ := modelPasses_spec kvs fm hm
  obtain ⟨b4, hb4, hiff4⟩ := sincePasses_spec kvs fs ht
  have htru : jsonTruthy (.obj kvs) = true := by
    rw [jsonTruthy]
    cases kvs with
    | nil => exact absurd rfl hne
    | cons k l => rfl
  refine ⟨b1 && b2 && b3 && b4, ?_, ?_⟩
  · rw [filter_entry]
    simp only [htru, Bool.not_true, Bool.false_eq_true, if_false, Bind.bind,
      Except.bind, hb1, hb2, hb3, hb4]
    cases b1 <;> cases b2 <;> cases b3 <;> cases b4 <;> rfl
  · rw [Bool.and_eq_true, Bool.and_eq_true, Bool.and_eq_true, hiff1, hiff2, hiff3, hiff4]
    tauto

/-- C8 witness: a matching entry against all four filters at once. -/
theorem c8_filter_semantics_witness :
    ∃ b, filter_entry
        (.obj [("user", .str "Bob"), ("action", .str "UPDATE"),
               ("model", .str "inventory.Application"),
               ("timestamp", .str "2024-06-01 12:00:00")])
        (some "bob") (some "UPDATE") (some "app") (some ⟨2024, 6, 1, 12, 0, 0⟩)
      = .ok b ∧
      (b = true ↔
        ((∀ u, (some "bob" : Option String) = some u → u ≠ "" →
            pyLower (jstrAt [("user", .str "Bob"), ("action", .str "UPDATE"),
               ("model", .str "inventory.Application"),
               ("timestamp", .str "2024-06-01 12:00:00")] "user") = pyLower u) ∧
         (∀ a, (some "UPDATE" : Option String) = some a → a ≠ "" →
            pyLower (jstrAt [("user", .str "Bob"), ("action", .str "UPDATE"),
               ("model", .str "inventory.Application"),
               ("timestamp", .str "2024-06-01 12:00:00")] "action") = pyLower a) ∧
         (∀ m, (some "app" : Option String) = some m → m ≠ "" →
            containsSub (pyLower (jstrAt [("user", .str "Bob"), ("action", .str "UPDATE"),
               ("model", .str "inventory.Application"),
               ("timestamp", .str "2024-06-01 12:00:00")] "model")).data
              (pyLower m).data = true) ∧
         (∀ d, (some (PyDateTime.mk 2024 6 1 12 0 0) : Option PyDateTime) = some d → ∀ t,
            strptimeYmdHMS (jstrAt [("user", .str "Bob"), ("action", .str "UPDATE"),
               ("model", .str "inventory.Application"),
               ("timestamp", .str "2024-06-01 12:00:00")] "timestamp") = some t →
            dtLt t d = false))) :=
  c8_filter_semantics _ (some "bob") (some "UPDATE") (some "app")
    (some ⟨2024, 6, 1, 12, 0, 0⟩) (List.cons_ne_nil _ _)
    (fun _ _ _ => ⟨"Bob", rfl⟩) (fun _ _ _ => ⟨"UPDATE", rfl⟩)
    (fun _ _ _ => ⟨"inventory.Application", rfl⟩)
    (fun _ _ => ⟨"2024-06-01 12:00:00", rfl⟩)

/-! ### Character arithmetic lemmas -/

theorem isDigit_toNat {c : Char} (h : c.isDigit = true) :
    48 ≤ c.toNat ∧ c.toNat ≤ 57 := by
  unfold Char.isDigit at h
  rw [Bool.and_eq_true, decide_eq_true_eq, decide_eq_true_eq] at h
  exact ⟨h.1, h.2⟩

theorem char_ne_of_toNat {c d : Char} (h : c.toNat ≠ d.toNat) : c ≠ d := by
  intro he
  subst he
  exact h rfl

theorem char_valid_nat (c : Char) :
    c.toNat < 0xd800 ∨ (0xdfff < c.toNat ∧ c.toNat < 0x110000) := by
  have h := c.valid
  rw [UInt32.isValidChar, Nat.isValidChar] at h
  exact h

theorem charToNat_ofNat_valid {n : Nat} (h : n.isValidChar) :
    (Char.ofNat n).toNat = n := by
  rw [Char.ofNat, dif_pos h]
  simp [Char.toNat, Char.ofNatAux, UInt32.toNat, BitVec.toNat_ofNat]

theorem hexVal_hexDigit {d : Nat} (h : d < 16) : hexVal (hexDigit d) = some d := by
  interval_cases d <;> decide

/-! ### Decimal printing/parsing lemmas -/

theorem digitChar_isDigit (m : Nat) (h : m < 10) :
    (Char.ofNat (48 + m)).isDigit = true := by
  interval_cases m <;> decide

theorem digitChar_ne_zero (m : Nat) (h1 : 1 ≤ m) (h2 : m < 10) :
    Char.ofNat (48 + m) ≠ '0' := by
  interval_cases m <;> decide

theorem natChars_digits (n : Nat) : ∀ c ∈ natChars n, c.isDigit = true := by
  induction n using Nat.strong_induction_on with
  | _ n ih =>
    rw [natChars]
    split_ifs with h
    · intro c hc
      rw [List.mem_singleton] at hc
      subst hc
      exact digitChar_isDigit n h
    · intro c hc
      rcases List.mem_append.mp hc with hc | hc
      · exact ih (n / 10) (Nat.div_lt_self (by omega) (by omega)) c hc
      · rw [List.mem_singleton] at hc
        subst hc
        exact digitChar_isDigit (n % 10) (Nat.mod_lt _ (by omega))

theorem natChars_head (n : Nat) (h : n ≠ 0) :
    ∃ c t, natChars n = c :: t ∧ c.isDigit = true ∧ c ≠ '0' := by
  induction n using Nat.strong_induction_on with
  | _ n ih =>
    rw [natChars]
    split_ifs with hlt
    · exact ⟨Char.ofNat (48 + n), [], rfl, digitChar_isDigit n hlt,
        digitChar_ne_zero n (by omega) hlt⟩
    · obtain ⟨c, t, hct, hd, h0⟩ :=
        ih (n / 10) (Nat.div_lt_self (by omega) (by omega)) (by omega)
      exact ⟨c, t ++ [Char.ofNat (48 + n % 10)], by rw [hct]; rfl, hd, h0⟩

theorem digitsToNat_natChars (n : Nat) : digitsToNat (natChars n) = n := by
  induction n using Nat.strong_induction_on with
  | _ n ih =>
    rw [natChars]
    split_ifs with h
    · show digitsToNat [Char.ofNat (48 + n)] = n
      rw [digitsToNat]
      simp only [List.foldl_cons, List.foldl_nil]
      rw [charToNat_ofNat_valid (by left; omega)]
      omega
    · rw [digitsToNat, List.foldl_append]
      rw [show List.foldl (fun acc c => acc * 10 + (c.toNat - 48)) 0
            (natChars (n / 10)) = digitsToNat (natChars (n / 10)) from rfl]
      rw [ih (n / 10) (Nat.div_lt_self (by omega) (by omega))]
      simp only [List.foldl_cons, List.foldl_nil]
      rw [charToNat_ofNat_valid (by left; omega)]
      omega

theorem takeWhile_append_all {p : Char → Bool} :
    ∀ (a b : List Char), (∀ c ∈ a, p c = true) →
      (∀ c, b.head? = some c → p c = false) →
      (a ++ b).takeWhile p = a ∧ (a ++ b).dropWhile p = b := by
  intro a
  induction a with
  | nil =>
    intro b _ hb
    cases b with
    | nil => exact ⟨rfl, rfl⟩
    | cons c t =>
      have := hb c rfl
      constructor
      · rw [List.nil_append, List.takeWhile_cons, this]
        simp
      · rw [List.nil_append, List.dropWhile_cons, this]
        simp
  | cons c a ih =>
    intro b ha hb
    have hc := ha c (List.mem_cons_self c a)
    have hrest := ih b (fun x hx => ha x (List.mem_cons_of_mem c hx)) hb
    constructor
    · rw [List.cons_append, List.takeWhile_cons, hc]
      simp only [if_true, hrest.1]
    · rw [List.cons_append, List.dropWhile_cons, hc]
      simp only [if_true, hrest.2]

theorem parseUIntPart_natChars (n : Nat) (rest : List Char)
    (hrest : ∀ c, rest.head? = some c → c.isDigit = false) :
    parseUIntPart (natChars n ++ rest) = some (n, rest) := by
  have hn0 : natChars 0 = ['0'] := by rw [natChars]; decide
  by_cases h0 : n = 0
  · subst h0
    rw [hn0]
    cases rest with
    | nil => rfl
    | cons c t =>
      rw [List.cons_append, parseUIntPart, if_pos rfl]
      simp
  · obtain ⟨c, t, hct, hd, hne0⟩ := natChars_head n h0
    have hall : ∀ x ∈ t, x.isDigit = true := by
      intro x hx
      exact natChars_digits n x (by rw [hct]; exact List.mem_cons_of_mem c hx)
    obtain ⟨htake, hdrop⟩ := takeWhile_append_all t rest hall hrest
    rw [hct, List.cons_append, parseUIntPart]
    rw [if_neg hne0, if_pos hd, htake, hdrop]
    have : digitsToNat (c :: t) = n := by rw [← hct]; exact digitsToNat_natChars n
    rw [this]

theorem isFloatTail_of_sep (rest : List Char)
    (hrest : ∀ c, rest.head? = some c → c = ',' ∨ c = '}' ∨ c = ']') :
    isFloatTail rest = false := by
  cases rest with
  | nil => rfl
  | cons c t =>
    rcases hrest c rfl with h | h | h <;> subst h <;> rfl

theorem head_of_sep_not_digit (rest : List Char)
    (hrest : ∀ c, rest.head? = some c → c = ',' ∨ c = '}' ∨ c = ']') :
    ∀ c, rest.head? = some c → c.isDigit = false := by
  intro c hc
  rcases hrest c hc with h | h | h <;> subst h <;> rfl

theorem parseNumber_intChars (n : Int) (rest : List Char)
    (hrest : ∀ c, rest.head? = some c → c = ',' ∨ c = '}' ∨ c = ']') :
    parseNumber (intChars n ++ rest) = some (n, rest) := by
  have hdig := head_of_sep_not_digit rest hrest
  have hfloat := isFloatTail_of_sep rest hrest
  have hn0 : natChars 0 = ['0'] := by rw [natChars]; decide
  rw [intChars]
  split_ifs with hneg
  · rw [List.cons_append]
    simp only [parseNumber, if_pos rfl]
    rw [parseUIntPart_natChars n.natAbs rest hdig]
    dsimp only
    rw [hfloat]
    simp only [Bool.false_eq_true, if_false]
    have hval : -((n.natAbs : Nat) : Int) = n := by omega
    rw [hval]
    simp
  · by_cases h0 : n = 0
    · subst h0
      rw [show Int.natAbs 0 = 0 from rfl, hn0]
      cases rest with
      | nil =>
        rw [show (['0'] ++ [] : List Char) = ['0'] from rfl]
        rfl
      | cons c t =>
        rw [List.cons_append]
        simp only [parseNumber, if_neg (show ('0' : Char) ≠ '-' by decide)]
        rw [parseUIntPart, if_pos rfl]
        dsimp only
        rw [List.nil_append, hfloat]
        rfl
    · obtain ⟨c, t, hct, hdh, _⟩ := natChars_head n.natAbs (by omega)
      have hcne : c ≠ '-' := by
        apply char_ne_of_toNat
        have h1 := isDigit_toNat hdh
        rw [show ('-').toNat = 45 from rfl]
        omega
      rw [hct, List.cons_append]
      simp only [parseNumber, if_neg hcne]
      rw [← List.cons_append, ← hct, parseUIntPart_natChars n.natAbs rest hdig]
      dsimp only
      rw [hfloat]
      simp only [Bool.false_eq_true, if_false]
      have hval : ((n.natAbs : Nat) : Int) = n := by omega
      rw [hval]

/-! ### String escape/parse roundtrip -/

theorem char_eq_of_toNat {c d : Char} (h : c.toNat = d.toNat) : c = d :=
  Char.ext (UInt32.ext h)

theorem hex4_toHex4 (n : Nat) (h : n < 0x10000) :
    hex4 (hexDigit (n / 4096 % 16)) (hexDigit (n / 256 % 16))
      (hexDigit (n / 16 % 16)) (hexDigit (n % 16)) = some n := by
  rw [hex4, hexVal_hexDigit (Nat.mod_lt _ (by omega)),
    hexVal_hexDigit (Nat.mod_lt _ (by omega)),
    hexVal_hexDigit (Nat.mod_lt _ (by omega)),
    hexVal_hexDigit (Nat.mod_lt _ (by omega))]
  dsimp only
  congr 1
  omega

theorem lowSurrogate_spec (g1 g2 g3 g4 : Char) (m : Nat) (t : List Char)
    (hg : hex4 g1 g2 g3 g4 = some m) (hm : 0xDC00 ≤ m ∧ m ≤ 0xDFFF) :
    lowSurrogate ('\\' :: 'u' :: g1 :: g2 :: g3 :: g4 :: t) = some (m, t) := by
  rw [lowSurrogate.eq_def]
  dsimp only
  rw [if_pos ⟨rfl, rfl⟩, hg]
  dsimp only
  rw [if_pos hm]

theorem strChar_u_bmp (d1 d2 d3 d4 : Char) (n : Nat) (t : List Char)
    (hh : hex4 d1 d2 d3 d4 = some n) (h1 : ¬(0xD800 ≤ n ∧ n ≤ 0xDBFF))
    (h2 : ¬(0xDC00 ≤ n ∧ n ≤ 0xDFFF)) :
    strChar ('\\' :: 'u' :: d1 :: d2 :: d3 :: d4 :: t) =
      some (.inr (Char.ofNat n, t)) := by
  rw [strChar.eq_def]
  dsimp only
  rw [if_neg (by decide), if_pos rfl, if_pos rfl, hh]
  dsimp only
  rw [if_neg h1, if_neg h2]

theorem strChar_u_pair (d1 d2 d3 d4 : Char) (n m : Nat) (t t2 : List Char)
    (hh : hex4 d1 d2 d3 d4 = some n) (hhi : 0xD800 ≤ n ∧ n ≤ 0xDBFF)
    (hlo : lowSurrogate t = some (m, t2)) :
    strChar ('\\' :: 'u' :: d1 :: d2 :: d3 :: d4 :: t) =
      some (.inr (Char.ofNat (0x10000 + (n - 0xD800) * 0x400 + (m - 0xDC00)), t2)) := by
  rw [strChar.eq_def]
  dsimp only
  rw [if_neg (by decide), if_pos rfl, if_pos rfl, hh]
  dsimp only
  rw [if_pos hhi, hlo]

theorem strChar_escapeChar (c : Char) (t : List Char) :
    strChar (escapeChar c ++ t) = some (.inr (c, t)) := by
  rw [escapeChar]
  split_ifs with h1 h2 h3 h4 h5 h6 h7 h8 h9
  · subst h1; rfl
  · subst h2; rfl
  · subst h3; rfl
  · subst h4; rfl
  · subst h5; rfl
  · have hc : c = Char.ofNat 8 := char_eq_of_toNat (by rw [h6]; rfl)
    subst hc; rfl
  · have hc : c = Char.ofNat 12 := char_eq_of_toNat (by rw [h7]; rfl)
    subst hc; rfl
  · rw [Bool.and_eq_true, decide_eq_true_eq, decide_eq_true_eq] at h8
    rw [List.singleton_append, strChar.eq_def]
    dsimp only
    rw [if_neg h1, if_neg h2, if_pos h8.1]
  · -- \uXXXX escape for a BMP character
    have hvalid := char_valid_nat c
    rw [toHex4]
    simp only [List.cons_append, List.nil_append]
    rw [strChar_u_bmp _ _ _ _ c.toNat t (hex4_toHex4 c.toNat h9)
      (by omega) (by omega)]
    rw [Char.ofNat_toNat]
  · -- surrogate pair for a character above the BMP
    have hvalid := char_valid_nat c
    have hge : 0x10000 ≤ c.toNat := by omega
    have hlt : c.toNat < 0x110000 := by omega
    have hdivlt : (c.toNat - 0x10000) / 0x400 < 0x400 :=
      Nat.div_lt_of_lt_mul (by omega)
    have hmodlt : (c.toNat - 0x10000) % 0x400 < 0x400 := Nat.mod_lt _ (by omega)
    rw [toHex4, toHex4]
    simp only [List.cons_append, List.nil_append, List.append_assoc]
    rw [strChar_u_pair _ _ _ _ (0xD800 + (c.toNat - 0x10000) / 0x400)
      (0xDC00 + (c.toNat - 0x10000) % 0x400) _ t
      (hex4_toHex4 _ (by omega)) (by omega)
      (lowSurrogate_spec _ _ _ _ _ t (hex4_toHex4 _ (by omega)) (by omega))]
    have hcp : 0x10000 + (0xD800 + (c.toNat - 0x10000) / 0x400 - 0xD800) * 0x400
        + (0xDC00 + (c.toNat - 0x10000) % 0x400 - 0xDC00) = c.toNat := by
      have hdm := Nat.div_add_mod (c.toNat - 0x10000) 0x400
      omega
    rw [hcp, Char.ofNat_toNat]

theorem escapeChar_length (c : Char) : 1 ≤ (escapeChar c).length := by
  rw [escapeChar]
  split_ifs <;> simp [toHex4]

theorem escapeList_length (cs : List Char) : cs.length ≤ (escapeList cs).length := by
  induction cs with
  | nil => simp [escapeList]
  | cons c cs ih =>
    rw [escapeList, List.map_cons, List.flatten_cons, List.length_append]
    rw [show (List.map escapeChar cs).flatten = escapeList cs from rfl]
    have := escapeChar_length c
    simp only [List.length_cons]
    omega

theorem psbGo_escape (cs : List Char) :
    ∀ (fuel : Nat) (rest : List Char), cs.length < fuel →
      psbGo fuel (escapeList cs ++ '"' :: rest) = some (cs, rest) := by
  induction cs with
  | nil =>
    intro fuel rest hf
    cases fuel with
    | zero => omega
    | succ f =>
      rw [escapeList]
      simp only [List.map_nil, List.flatten_nil, List.nil_append]
      rfl
  | cons c cs ih =>
    intro fuel rest hf
    cases fuel with
    | zero => omega
    | succ f =>
      rw [escapeList, List.map_cons, List.flatten_cons, List.append_assoc]
      rw [show (List.map escapeChar cs).flatten = escapeList cs from rfl]
      rw [psbGo, strChar_escapeChar]
      dsimp only
      rw [ih f rest (by simp at hf; omega)]
      rfl

theorem parseStringBody_escape (cs : List Char) (rest : List Char) :
    parseStringBody (escapeList cs ++ '"' :: rest) = some (cs, rest) := by
  rw [parseStringBody]
  apply psbGo_escape
  have := escapeList_length cs
  simp only [List.length_append, List.length_cons]
  omega

/-! ### Helper lemmas for the value roundtrip -/

theorem skipWs_cons_nws {c : Char} (l : List Char) (h : isWsChar c = false) :
    skipWs (c :: l) = c :: l := by
  rw [skipWs, List.dropWhile_cons, h]
  simp

theorem digit_head_facts {c : Char} (h : c.isDigit = true) :
    isWsChar c = false ∧ c ≠ '{' ∧ c ≠ '[' ∧ c ≠ '"' ∧ c ≠ 'n' ∧ c ≠ 't' ∧
      c ≠ 'f' ∧ c ≠ ']' ∧ c ≠ '}' := by
  obtain ⟨h1, h2⟩ := isDigit_toNat h
  have hsp : c ≠ ' ' := char_ne_of_toNat (by rw [show (' ').toNat = 32 from rfl]; omega)
  have hta : c ≠ '\t' := char_ne_of_toNat (by rw [show ('\t').toNat = 9 from rfl]; omega)
  have hnl : c ≠ '\n' := char_ne_of_toNat (by rw [show ('\n').toNat = 10 from rfl]; omega)
  have hcr : c ≠ '\r' := char_ne_of_toNat (by rw [show ('\r').toNat = 13 from rfl]; omega)
  refine ⟨?_, ?_, ?_, ?_, ?_, ?_, ?_, ?_, ?_⟩
  · simp [isWsChar, hsp, hta, hnl, hcr]
  · exact char_ne_of_toNat (by rw [show ('{').toNat = 123 from rfl]; omega)
  · exact char_ne_of_toNat (by rw [show ('[').toNat = 91 from rfl]; omega)
  · exact char_ne_of_toNat (by rw [show ('"').toNat = 34 from rfl]; omega)
  · exact char_ne_of_toNat (by rw [show ('n').toNat = 110 from rfl]; omega)
  · exact char_ne_of_toNat (by rw [show ('t').toNat = 116 from rfl]; omega)
  · exact char_ne_of_toNat (by rw [show ('f').toNat = 102 from rfl]; omega)
  · exact char_ne_of_toNat (by rw [show (']').toNat = 93 from rfl]; omega)
  · exact char_ne_of_toNat (by rw [show ('}').toNat = 125 from rfl]; omega)

theorem intChars_head (n : Int) :
    ∃ c t, intChars n = c :: t ∧ isWsChar c = false ∧ c ≠ '{' ∧ c ≠ '[' ∧
      c ≠ '"' ∧ c ≠ 'n' ∧ c ≠ 't' ∧ c ≠ 'f' ∧ c ≠ ']' ∧ c ≠ '}' := by
  rw [intChars]
  split_ifs with hneg
  · exact ⟨'-', natChars n.natAbs, rfl, by decide, by decide, by decide, by decide,
      by decide, by decide, by decide, by decide, by decide⟩
  · by_cases h0 : n.natAbs = 0
    · rw [h0, show natChars 0 = ['0'] by rw [natChars]; decide]
      exact ⟨'0', [], rfl, by decide, by decide, by decide, by decide, by decide,
        by decide, by decide, by decide, by decide⟩
    · obtain ⟨c, t, hct, hd, _⟩ := natChars_head n.natAbs h0
      obtain ⟨f1, f2, f3, f4, f5, f6, f7, f8, f9⟩ := digit_head_facts hd
      exact ⟨c, t, hct, f1, f2, f3, f4, f5, f6, f7, f8, f9⟩

theorem dumpsVal_head (j : Json) :
    ∃ c t, dumpsVal j = c :: t ∧ isWsChar c = false ∧ c ≠ ']' ∧ c ≠ '}' := by
  cases j with
  | int n =>
    obtain ⟨c, t, hct, f1, _, _, _, _, _, _, f8, f9⟩ := intChars_head n
    exact ⟨c, t, by rw [show dumpsVal (.int n) = intChars n from rfl, hct], f1, f8, f9⟩
  | bool b => cases b <;> exact ⟨_, _, rfl, by decide⟩
  | null => exact ⟨'n', _, rfl, by decide⟩
  | str s => exact ⟨'"', _, rfl, by decide⟩
  | arr xs => exact ⟨'[', _, rfl, by decide⟩
  | obj kvs => exact ⟨'{', _, rfl, by decide⟩

theorem dumpsElems_cons_ex (x : Json) (xs : List Json) :
    ∃ t, dumpsElems (x :: xs) = dumpsVal x ++ t := by
  cases xs with
  | nil => exact ⟨[], by rw [List.append_nil]; rfl⟩
  | cons y ys => exact ⟨',' :: dumpsElems (y :: ys), rfl⟩

theorem dumpsMembers_head (kv : String × Json) (tl : List (String × Json)) :
    ∃ t, dumpsMembers (kv :: tl) = '"' :: t := by
  obtain ⟨k, v⟩ := kv
  cases tl with
  | nil => exact ⟨_, rfl⟩
  | cons m tl => exact ⟨_, rfl⟩

theorem Nfuel_pos (j : Json) : 1 ≤ Nfuel j := by
  cases j <;> simp [Nfuel]

theorem foldl_objInsert_eq :
    ∀ (kvs acc : List (String × Json)),
      (∀ kv ∈ kvs, acc.any (fun p => p.1 = kv.1) = false) →
      distinctKeys (kvs.map Prod.fst) = true →
      List.foldl (fun a kv => objInsert a kv.1 kv.2) acc kvs = acc ++ kvs := by
  intro kvs
  induction kvs with
  | nil => intro acc _ _; simp
  | cons kv tl ih =>
    intro acc hacc hdk
    rw [List.map_cons, distinctKeys, Bool.and_eq_true] at hdk
    obtain ⟨hnotin, hdk⟩ := hdk
    rw [List.foldl_cons]
    rw [show objInsert acc kv.1 kv.2 = acc ++ [(kv.1, kv.2)] by
      rw [objInsert, hacc kv (List.mem_cons_self kv tl)]
      simp]
    rw [ih (acc ++ [(kv.1, kv.2)]) ?_ hdk]
    · simp
    · intro kv2 hkv2
      rw [List.any_append]
      rw [hacc kv2 (List.mem_cons_of_mem kv hkv2)]
      simp only [Bool.false_or, List.any_cons, List.any_nil, Bool.or_false]
      rw [decide_eq_false]
      intro hEq
      rw [Bool.not_eq_true'] at hnotin
      rw [List.any_eq_false] at hnotin
      have hmem : kv2.1 ∈ tl.map Prod.fst := List.mem_map_of_mem Prod.fst hkv2
      have := hnotin kv2.1 hmem
      simp only [decide_eq_true_eq] at this
      exact this hEq.symm

/-- The compact encoding of a well-formed value parses back to the value,
with the remainder untouched (the remainder may only start with a JSON
separator, as in every call site). -/
theorem parse_dumps (fuel : Nat) :
    (∀ (j : Json) (rest : List Char), jsonWF j = true → Nfuel j ≤ fuel →
      (∀ c, rest.head? = some c → c = ',' ∨ c = '}' ∨ c = ']') →
      parseValue fuel (dumpsVal j ++ rest) = some (j, rest)) ∧
    (∀ (xs : List Json) (acc : List Json) (rest : List Char), xs ≠ [] →
      jsonWFList xs = true → NfuelE xs ≤ fuel →
      parseElems fuel (dumpsElems xs ++ ']' :: rest) acc =
        some (.arr (acc ++ xs), rest)) ∧
    (∀ (kvs : List (String × Json)) (acc : List (String × Json)) (rest : List Char),
      kvs ≠ [] → jsonWFMembers kvs = true → NfuelM kvs ≤ fuel →
      parseMembers fuel (dumpsMembers kvs ++ '}' :: rest) acc =
        some (.obj (List.foldl (fun a kv => objInsert a kv.1 kv.2) acc kvs), rest)) := by
  induction fuel with
  | zero =>
    refine ⟨?_, ?_, ?_⟩
    · intro j _ _ hn _
      have := Nfuel_pos j
      omega
    · intro xs _ _ hne _ hn
      cases xs with
      | nil => exact absurd rfl hne
      | cons x xs => rw [NfuelE] at hn; have := Nfuel_pos x; omega
    · intro kvs _ _ hne _ hn
      cases kvs with
      | nil => exact absurd rfl hne
      | cons kv kvs => rw [NfuelM] at hn; have := Nfuel_pos kv.2; omega
  | succ fuel ih =>
    obtain ⟨ihV, ihE, ihM⟩ := ih
    refine ⟨?_, ?_, ?_⟩
    · -- parseValue
      intro j rest hwf hn hrest
      cases j with
      | null => rfl
      | bool b => cases b <;> rfl
      | int n =>
        obtain ⟨c, t, hct, f1, f2, f3, f4, f5, f6, f7, _, _⟩ := intChars_head n
        have hshape : dumpsVal (Json.int n) ++ rest = c :: (t ++ rest) := by
          rw [show dumpsVal (Json.int n) = intChars n from rfl, hct]
          simp
        rw [hshape, parseValue, skipWs_cons_nws _ f1]
        dsimp only
        rw [if_neg f2, if_neg f3, if_neg f4, if_neg f5, if_neg f6, if_neg f7]
        rw [show c :: (t ++ rest) = intChars n ++ rest by rw [hct]; simp]
        rw [parseNumber_intChars n rest hrest]
        rfl
      | str s =>
        have hshape : dumpsVal (Json.str s) ++ rest =
            '"' :: (escapeList s.data ++ '"' :: rest) := by
          rw [show dumpsVal (Json.str s) = '"' :: (escapeList s.data ++ ['"']) from rfl]
          simp
        rw [hshape, parseValue, skipWs_cons_nws _ (by decide)]
        dsimp only
        rw [if_neg (by decide), if_neg (by decide), if_pos rfl]
        rw [parseStringBody_escape]
        rfl
      | arr xs =>
        cases xs with
        | nil => rfl
        | cons x xs2 =>
          obtain ⟨c, t, hct, g1, g2, _⟩ := dumpsVal_head x
          obtain ⟨te, hte⟩ := dumpsElems_cons_ex x xs2
          have hshape : dumpsVal (Json.arr (x :: xs2)) ++ rest
              = '[' :: (dumpsElems (x :: xs2) ++ ']' :: rest) := by
            rw [show dumpsVal (Json.arr (x :: xs2))
                = '[' :: (dumpsElems (x :: xs2) ++ [']']) from rfl]
            simp
          have hinner : dumpsElems (x :: xs2) ++ ']' :: rest
              = c :: (t ++ (te ++ ']' :: rest)) := by
            rw [hte, hct]
            simp
          rw [hshape, parseValue, skipWs_cons_nws _ (by decide)]
          dsimp only
          rw [if_neg (by decide), if_pos rfl]
          rw [hinner, skipWs_cons_nws _ g1]
          dsimp only
          rw [if_neg g2, ← hinner]
          rw [ihE (x :: xs2) [] rest (by simp)
            (by rw [show jsonWF (Json.arr (x :: xs2)) = jsonWFList (x :: xs2) from rfl]
                  at hwf
                exact hwf)
            (by rw [Nfuel] at hn; omega)]
          simp
      | obj kvs =>
        cases kvs with
        | nil => rfl
        | cons kv tl =>
          obtain ⟨tm, htm⟩ := dumpsMembers_head kv tl
          have hshape : dumpsVal (Json.obj (kv :: tl)) ++ rest
              = '{' :: (dumpsMembers (kv :: tl) ++ '}' :: rest) := by
            rw [show dumpsVal (Json.obj (kv :: tl))
                = '{' :: (dumpsMembers (kv :: tl) ++ ['}']) from rfl]
            simp
          have hinner : dumpsMembers (kv :: tl) ++ '}' :: rest
              = '"' :: (tm ++ '}' :: rest) := by
            rw [htm]
            simp
          rw [hshape, parseValue, skipWs_cons_nws _ (by decide)]
          dsimp only
          rw [if_pos rfl]
          rw [hinner, skipWs_cons_nws _ (by decide)]
          dsimp only
          rw [if_neg (by decide), ← hinner]
          rw [show jsonWF (Json.obj (kv :: tl))
              = (distinctKeys ((kv :: tl).map Prod.fst) && jsonWFMembers (kv :: tl))
              from rfl, Bool.and_eq_true] at hwf
          rw [ihM (kv :: tl) [] rest (by simp) hwf.2 (by rw [Nfuel] at hn; omega)]
          rw [foldl_objInsert_eq (kv :: tl) [] (by intro _ _; rfl) hwf.1]
          rw [List.nil_append]
    · -- parseElems
      intro xs acc rest hne hwf hn
      cases xs with
      | nil => exact absurd rfl hne
      | cons x xs2 =>
        rw [show jsonWFList (x :: xs2) = (jsonWF x && jsonWFList xs2) from rfl,
          Bool.and_eq_true] at hwf
        rw [NfuelE] at hn
        cases xs2 with
        | nil =>
          rw [show dumpsElems [x] = dumpsVal x from rfl, parseElems]
          rw [ihV x (']' :: rest) hwf.1 (by omega)
            (by intro c hc; cases hc; right; right; rfl)]
          dsimp only
          rw [skipWs_cons_nws _ (by decide)]
          dsimp only
          rw [if_neg (by decide), if_pos rfl]
        | cons y ys =>
          rw [show dumpsElems (x :: y :: ys) = dumpsVal x ++ ',' :: dumpsElems (y :: ys)
            from rfl]
          rw [List.append_assoc, List.cons_append, parseElems]
          rw [ihV x (',' :: (dumpsElems (y :: ys) ++ ']' :: rest)) hwf.1 (by omega)
            (by intro c hc; cases hc; left; rfl)]
          dsimp only
          rw [skipWs_cons_nws _ (by decide)]
          dsimp only
          rw [if_pos rfl]
          rw [ihE (y :: ys) (acc ++ [x]) rest (by simp) hwf.2
            (by rw [NfuelE] at hn ⊢; omega)]
          simp
    · -- parseMembers
      intro kvs acc rest hne hwf hn
      cases kvs with
      | nil => exact absurd rfl hne
      | cons kv tl =>
        obtain ⟨k, v⟩ := kv
        rw [show jsonWFMembers ((k, v) :: tl) = (jsonWF v && jsonWFMembers tl) from rfl,
          Bool.and_eq_true] at hwf
        rw [NfuelM] at hn
        dsimp only at hn
        cases tl with
        | nil =>
          have hshape : dumpsMembers [(k, v)] ++ '}' :: rest
              = '"' :: (escapeList k.data ++ '"' :: (':' :: (dumpsVal v ++ '}' :: rest))) := by
            rw [show dumpsMembers [(k, v)]
                = '"' :: (escapeList k.data ++ '"' :: ':' :: dumpsVal v) from rfl]
            simp
          rw [hshape, parseMembers]
          rw [if_pos rfl, parseStringBody_escape]
          dsimp only
          rw [skipWs_cons_nws _ (by decide)]
          dsimp only
          rw [if_pos rfl]
          rw [ihV v ('}' :: rest) hwf.1 (by omega)
            (by intro c hc; cases hc; right; left; rfl)]
          dsimp only
          rw [skipWs_cons_nws _ (by decide)]
          dsimp only
          rw [if_neg (by decide), if_pos rfl]
          rfl
        | cons m tl2 =>
          obtain ⟨tm2, htm2⟩ := dumpsMembers_head m tl2
          have hshape : dumpsMembers ((k, v) :: m :: tl2) ++ '}' :: rest
              = '"' :: (escapeList k.data ++ '"' :: (':' :: (dumpsVal v
                ++ ',' :: (dumpsMembers (m :: tl2) ++ '}' :: rest)))) := by
            rw [show dumpsMembers ((k, v) :: m :: tl2)
                = ('"' :: (escapeList k.data ++ '"' :: ':' :: dumpsVal v))
                  ++ ',' :: dumpsMembers (m :: tl2) from rfl]
            simp
          rw [hshape, parseMembers]
          rw [if_pos rfl, parseStringBody_escape]
          dsimp only
          rw [skipWs_cons_nws _ (by decide)]
          dsimp only
          rw [if_pos rfl]
          rw [ihV v (',' :: (dumpsMembers (m :: tl2) ++ '}' :: rest)) hwf.1 (by omega)
            (by intro c hc; cases hc; left; rfl)]
          dsimp only
          rw [skipWs_cons_nws _ (by decide)]
          dsimp only
          rw [if_pos rfl]
          rw [show dumpsMembers (m :: tl2) ++ '}' :: rest = '"' :: (tm2 ++ '}' :: rest) by
            rw [htm2]; simp]
          rw [skipWs_cons_nws _ (by decide)]
          rw [show ('"' : Char) :: (tm2 ++ '}' :: rest)
              = dumpsMembers (m :: tl2) ++ '}' :: rest by rw [htm2]; simp]
          rw [ihM (m :: tl2) (objInsert acc (String.mk k.data) v) rest (by simp) hwf.2
            (by rw [NfuelM] at hn ⊢; omega)]
          rfl

theorem natChars_length_pos (n : Nat) : 1 ≤ (natChars n).length := by
  rw [natChars]
  split_ifs
  · simp
  · simp

theorem intChars_length_pos (n : Int) : 1 ≤ (intChars n).length := by
  rw [intChars]
  split_ifs
  · simp
  · exact natChars_length_pos _

mutual

theorem Nfuel_le (j : Json) : Nfuel j ≤ (dumpsVal j).length := by
  cases j with
  | null => decide
  | bool b => cases b <;> decide
  | int n =>
    rw [show dumpsVal (Json.int n) = intChars n from rfl, Nfuel]
    exact intChars_length_pos n
  | str s =>
    rw [show dumpsVal (Json.str s) = '"' :: (escapeList s.data ++ ['"']) from rfl, Nfuel]
    simp
  | arr xs =>
    rw [show dumpsVal (Json.arr xs) = '[' :: (dumpsElems xs ++ [']']) from rfl, Nfuel]
    have := NfuelE_le xs
    simp only [List.length_cons, List.length_append, List.length_singleton]
    omega
  | obj kvs =>
    rw [show dumpsVal (Json.obj kvs) = '{' :: (dumpsMembers kvs ++ ['}']) from rfl, Nfuel]
    have := NfuelM_le kvs
    simp only [List.length_cons, List.length_append, List.length_singleton]
    omega

theorem NfuelE_le (xs : List Json) : NfuelE xs ≤ (dumpsElems xs).length + 1 := by
  cases xs with
  | nil => decide
  | cons x xs2 =>
    cases xs2 with
    | nil =>
      rw [show dumpsElems [x] = dumpsVal x from rfl, NfuelE, NfuelE]
      have := Nfuel_le x
      omega
    | cons y ys =>
      rw [show dumpsElems (x :: y :: ys) = dumpsVal x ++ ',' :: dumpsElems (y :: ys)
        from rfl, NfuelE]
      have h1 := Nfuel_le x
      have h2 := NfuelE_le (y :: ys)
      simp only [List.length_append, List.length_cons]
      omega

theorem NfuelM_le (kvs : List (String × Json)) :
    NfuelM kvs ≤ (dumpsMembers kvs).length + 1 := by
  cases kvs with
  | nil => decide
  | cons kv tl =>
    obtain ⟨k, v⟩ := kv
    cases tl with
    | nil =>
      rw [show dumpsMembers [(k, v)]
        = '"' :: (escapeList k.data ++ '"' :: ':' :: dumpsVal v) from rfl, NfuelM, NfuelM]
      have := Nfuel_le v
      simp only [List.length_cons, List.length_append]
      omega
    | cons m tl2 =>
      rw [show dumpsMembers ((k, v) :: m :: tl2)
        = ('"' :: (escapeList k.data ++ '"' :: ':' :: dumpsVal v))
          ++ ',' :: dumpsMembers (m :: tl2) from rfl, NfuelM]
      have h1 := Nfuel_le v
      have h2 := NfuelM_le (m :: tl2)
      simp only [List.length_append, List.length_cons]
      omega

end

/-- json.loads is a left inverse of compact json.dumps on values with
duplicate-free object keys. -/
theorem jsonLoads_dumps (j : Json) (hwf : jsonWF j = true) :
    jsonLoads (dumps j) = some j := by
  rw [jsonLoads]
  have hdata : (dumps j).data = dumpsVal j := rfl
  have hlen : (dumps j).length = (dumpsVal j).length := rfl
  rw [hdata, hlen]
  have hparse := (parse_dumps ((dumpsVal j).length + 1)).1 j [] hwf
    (by have := Nfuel_le j; omega) (by intro c hc; cases hc)
  rw [List.append_nil] at hparse
  rw [hparse]
  rfl

/-! ### The audit entry encoding is well formed and formats cleanly -/

theorem pyValToJson_wf (p : PyVal) : jsonWF (pyValToJson p) = true := by
  cases p <;> rfl

theorem jsonWFMembers_changes (l : List ChangeEntry) :
    jsonWFMembers (l.map fun c =>
      (c.1, Json.obj [("old", Json.str c.2.1), ("new", Json.str c.2.2)])) = true := by
  induction l with
  | nil => rfl
  | cons c tl ih =>
    rw [List.map_cons, jsonWFMembers, ih]
    rfl

theorem jsonWFMembers_info (l : List (String × PyVal)) :
    jsonWFMembers (l.map fun p => (p.1, pyValToJson p.2)) = true := by
  induction l with
  | nil => rfl
  | cons p tl ih =>
    rw [List.map_cons, jsonWFMembers, ih]
    rw [show (p.1, pyValToJson p.2).2 = pyValToJson p.2 from rfl, pyValToJson_wf]
    rfl

theorem changesToJson_wf (e : AuditEvent)
    (h1 : distinctKeys (e.changes.map (fun c => c.1)) = true) :
    jsonWF (changesToJson e.changes) = true := by
  rw [changesToJson,
    show jsonWF (Json.obj (e.changes.map fun c =>
      (c.1, Json.obj [("old", Json.str c.2.1), ("new", Json.str c.2.2)])))
    = (distinctKeys ((e.changes.map fun c =>
        (c.1, Json.obj [("old", Json.str c.2.1), ("new", Json.str c.2.2)])).map Prod.fst)
      && jsonWFMembers (e.changes.map fun c =>
        (c.1, Json.obj [("old", Json.str c.2.1), ("new", Json.str c.2.2)]))) from rfl]
  rw [jsonWFMembers_changes, List.map_map]
  rw [show ((Prod.fst ∘ fun (c : ChangeEntry) =>
    (c.1, Json.obj [("old", Json.str c.2.1), ("new", Json.str c.2.2)])))
    = (fun (c : ChangeEntry) => c.1) from rfl]
  rw [h1]
  rfl

theorem infoToJson_wf (e : AuditEvent)
    (h2 : distinctKeys (e.additional_info.map (fun p => p.1)) = true) :
    jsonWF (infoToJson e.additional_info) = true := by
  rw [infoToJson,
    show jsonWF (Json.obj (e.additional_info.map fun p => (p.1, pyValToJson p.2)))
    = (distinctKeys ((e.additional_info.map fun p =>
        (p.1, pyValToJson p.2)).map Prod.fst)
      && jsonWFMembers (e.additional_info.map fun p => (p.1, pyValToJson p.2)))
    from rfl]
  rw [jsonWFMembers_info, List.map_map]
  rw [show ((Prod.fst ∘ fun (p : String × PyVal) => (p.1, pyValToJson p.2)))
    = (fun (p : String × PyVal) => p.1) from rfl]
  rw [h2]
  rfl

theorem eventToJson_wf (e : AuditEvent)
    (h1 : distinctKeys (e.changes.map (fun c => c.1)) = true)
    (h2 : distinctKeys (e.additional_info.map (fun p => p.1)) = true) :
    jsonWF (eventToJson e) = true := by
  have hch := changesToJson_wf e h1
  have hinfo := infoToJson_wf e h2
  have huid : jsonWF (match e.user_id with
      | some i => Json.int i | none => Json.null) = true := by
    cases e.user_id <;> rfl
  rw [eventToJson]
  rw [show ∀ L, jsonWF (Json.obj L)
    = (distinctKeys (L.map Prod.fst) && jsonWFMembers L) from fun _ => rfl]
  rw [Bool.and_eq_true]
  constructor
  · rfl
  · simp only [jsonWFMembers, Bool.and_eq_true]
    exact ⟨rfl, rfl, rfl, rfl, rfl, rfl, huid, hch, hinfo, trivial⟩

theorem formatChanges_map (l : List ChangeEntry) :
    formatChanges (l.map fun c =>
      (c.1, Json.obj [("old", Json.str c.2.1), ("new", Json.str c.2.2)])) =
      .ok (l.map fun c => c.1 ++ ": " ++ c.2.1 ++ " -> " ++ c.2.2) := by
  induction l with
  | nil => rfl
  | cons c tl ih =>
    rw [List.map_cons, formatChanges, ih]
    dsimp only
    rfl

theorem changesSuffix_event (e : AuditEvent) :
    ∃ s, changesSuffix (eventToJson e) = .ok s := by
  rw [changesSuffix]
  by_cases hc : ((pyDictGet (eventToJson e) "action").isStrEq "UPDATE"
      && jsonTruthy (pyDictGet (eventToJson e) "changes")) = true
  · rw [if_pos hc]
    rw [show pyDictGet (eventToJson e) "changes" = changesToJson e.changes from rfl,
      changesToJson]
    dsimp only
    rw [formatChanges_map]
    exact ⟨_, rfl⟩
  · rw [if_neg hc]
    exact ⟨"", rfl⟩

theorem infoSuffix_event (e : AuditEvent) :
    ∃ s, infoSuffix (eventToJson e) = .ok s := by
  rw [infoSuffix]
  by_cases hc : jsonTruthy (pyDictGet (eventToJson e) "additional_info") = true
  · rw [if_pos hc]
    rw [show pyDictGet (eventToJson e) "additional_info"
      = infoToJson e.additional_info from rfl, infoToJson]
    exact ⟨_, rfl⟩
  · rw [if_neg hc]
    exact ⟨"", rfl⟩

theorem formatRecordBody_event (e : AuditEvent) :
    ∃ pre : String, formatRecordBody (eventToJson e)
      = .ok (pre ++ " | JSON: " ++ dumps (eventToJson e)) := by
  obtain ⟨cs, hcs⟩ := changesSuffix_event e
  obtain ⟨infs, hinfs⟩ := infoSuffix_event e
  refine ⟨("[" ++ e.timestamp ++ "] " ++ e.action ++ " " ++ e.model ++ "#"
    ++ e.object_id ++ " by " ++ e.user ++ ": " ++ e.object_str) ++ cs ++ infs, ?_⟩
  rw [formatRecordBody]
  rw [show (pyGetItem (eventToJson e) "timestamp") = .ok (.str e.timestamp) from rfl,
    show (pyGetItem (eventToJson e) "action") = .ok (.str e.action) from rfl,
    show (pyGetItem (eventToJson e) "model") = .ok (.str e.model) from rfl,
    show (pyGetItem (eventToJson e) "object_id") = .ok (.str e.object_id) from rfl,
    show (pyGetItem (eventToJson e) "object_str") = .ok (.str e.object_str) from rfl,
    show (pyGetItem (eventToJson e) "user") = .ok (.str e.user) from rfl]
  simp only [Bind.bind, Except.bind, hcs, hinfs, pure, Except.pure]
  rfl

/-! ### Locating the JSON segment of a log line (rfind, strip) -/

theorem isPrefixOf_self_append (pat l : List Char) :
    pat.isPrefixOf (pat ++ l) = true := by
  induction pat with
  | nil => simp [List.isPrefixOf]
  | cons p ps ih => simp [List.isPrefixOf, ih]

theorem isPrefixOf_nil_false (pat : List Char) (h : pat ≠ []) :
    pat.isPrefixOf ([] : List Char) = false := by
  cases pat with
  | nil => exact absurd rfl h
  | cons p ps => rfl

theorem not_contains_drop (b pat : List Char) (hne : pat ≠ [])
    (h : containsSub b pat = false) : ∀ i, pat.isPrefixOf (b.drop i) = false := by
  intro i
  by_cases hi : i ≤ b.length
  · rw [containsSub, List.any_eq_false] at h
    have h2 := h i (List.mem_range.mpr (by omega))
    cases hx : pat.isPrefixOf (b.drop i) with
    | false => rfl
    | true => exact absurd hx h2
  · rw [List.drop_eq_nil_of_le (by omega)]
    exact isPrefixOf_nil_false pat hne

theorem rfindFrom_max (l pat : List Char) (i : Nat)
    (hocc : pat.isPrefixOf (l.drop i) = true)
    (hmax : ∀ j, i < j → pat.isPrefixOf (l.drop j) = false) :
    ∀ n, i ≤ n → rfindFrom l pat n = some i := by
  intro n
  induction n with
  | zero =>
    intro hn
    have hi0 : i = 0 := by omega
    subst hi0
    rw [List.drop_zero] at hocc
    rw [rfindFrom, if_pos hocc]
  | succ n ih =>
    intro hn
    rw [rfindFrom]
    by_cases he : i = n + 1
    · subst he
      rw [if_pos hocc]
    · rw [hmax (n + 1) (by omega)]
      simp only [Bool.false_eq_true, if_false]
      exact ih (by omega)

theorem rfindSub_marker (a b : List Char)
    (hb : containsSub b ['|', ' ', 'J', 'S', 'O', 'N', ':', ' '] = false) :
    rfindSub (a ++ ['|', ' ', 'J', 'S', 'O', 'N', ':', ' '] ++ b)
      ['|', ' ', 'J', 'S', 'O', 'N', ':', ' '] = some a.length := by
  rw [rfindSub]
  apply rfindFrom_max
  · rw [List.append_assoc, List.drop_append_eq_append_drop, List.drop_of_length_le
      (by omega), Nat.sub_self, List.drop_zero, List.nil_append]
    exact isPrefixOf_self_append _ _
  · intro j hj
    rw [List.append_assoc, List.drop_append_eq_append_drop,
      List.drop_of_length_le (by omega), List.nil_append]
    by_cases hj8 : j < a.length + 8
    · rw [List.drop_append_eq_append_drop]
      rw [show j - a.length - ['|', ' ', 'J', 'S', 'O', 'N', ':', ' '].length = 0 by
        simp only [List.length_cons, List.length_nil]; omega]
      rw [List.drop_zero]
      have hd : j - a.length = 1 ∨ j - a.length = 2 ∨ j - a.length = 3 ∨
          j - a.length = 4 ∨ j - a.length = 5 ∨ j - a.length = 6 ∨
          j - a.length = 7 := by omega
      rcases hd with h | h | h | h | h | h | h <;> rw [h] <;>
        simp [List.isPrefixOf]
    · rw [List.drop_append_eq_append_drop, List.drop_of_length_le
        (by simp only [List.length_cons, List.length_nil]; omega), List.nil_append]
      exact not_contains_drop b _ (by decide) hb _
  · simp only [List.length_append, List.length_cons, List.length_nil]
    omega

theorem stripChars_of (l : List Char)
    (hh : ∀ c, l.head? = some c → isPySpace c = false)
    (hl : ∀ c, l.getLast? = some c → isPySpace c = false) :
    stripChars l = l := by
  rw [stripChars]
  have h1 : l.dropWhile isPySpace = l := by
    cases l with
    | nil => rfl
    | cons c t =>
      rw [List.dropWhile_cons, hh c rfl]
      simp
  rw [h1]
  have h2 : l.reverse.dropWhile isPySpace = l.reverse := by
    cases hr : l.reverse with
    | nil => rfl
    | cons c t =>
      have : l.getLast? = some c := by
        rw [← List.head?_reverse, hr]
        rfl
      rw [List.dropWhile_cons, hl c this]
      simp
  rw [h2, List.reverse_reverse]

theorem parse_log_entry_of_line (pre : String) (kvs : List (String × Json))
    (hwf : jsonWF (Json.obj kvs) = true)
    (hb : containsSub (dumpsVal (Json.obj kvs))
      ['|', ' ', 'J', 'S', 'O', 'N', ':', ' '] = false) :
    parse_log_entry (pre ++ " | JSON: " ++ dumps (Json.obj kvs))
      = some (Json.obj kvs) := by
  rw [parse_log_entry]
  have hdata : (pre ++ " | JSON: " ++ dumps (Json.obj kvs)).data
      = (pre.data ++ [' ']) ++ ['|', ' ', 'J', 'S', 'O', 'N', ':', ' ']
        ++ dumpsVal (Json.obj kvs) := by
    rw [show (pre ++ " | JSON: " ++ dumps (Json.obj kvs)).data
      = pre.data ++ (' ' :: '|' :: ' ' :: 'J' :: 'S' :: 'O' :: 'N' :: ':' :: ' ' :: [])
        ++ dumpsVal (Json.obj kvs) from rfl]
    simp
  rw [hdata, rfindSub_marker _ _ hb]
  dsimp only
  have hlen : (pre.data ++ [' ']).length + 8
      = ((pre.data ++ [' ']) ++ ['|', ' ', 'J', 'S', 'O', 'N', ':', ' ']).length := by
    simp
  have hdrop : ((pre.data ++ [' ']) ++ ['|', ' ', 'J', 'S', 'O', 'N', ':', ' ']
        ++ dumpsVal (Json.obj kvs)).drop ((pre.data ++ [' ']).length + 8)
      = dumpsVal (Json.obj kvs) := by
    rw [hlen, List.drop_left]
  rw [hdrop]
  have hstrip : stripChars (dumpsVal (Json.obj kvs)) = dumpsVal (Json.obj kvs) := by
    apply stripChars_of
    · intro c hc
      rw [show dumpsVal (Json.obj kvs)
        = '{' :: (dumpsMembers kvs ++ ['}']) from rfl] at hc
      cases hc
      rfl
    · intro c hc
      rw [show dumpsVal (Json.obj kvs)
        = ('{' :: dumpsMembers kvs) ++ ['}'] from by simp [dumpsVal]] at hc
      rw [List.getLast?_concat] at hc
      cases hc
      rfl
  rw [hstrip]
  rw [show String.mk (dumpsVal (Json.obj kvs)) = dumps (Json.obj kvs) from rfl]
  exact jsonLoads_dumps _ hwf


/-- The adversarial event whose human-readable prefix smuggles the reader's
marker: object_str itself contains "| JSON: ", and its JSON-escaped copy
inside the dumped entry makes the marker's LAST occurrence (str.rfind) fall
inside the JSON segment, so the reader decodes a non-JSON tail. -/
def evilEvent : AuditEvent :=
  { timestamp := "t", action := "CREATE", model := "m", object_id := "1",
    object_str := "| JSON: x", user := "SYSTEM", user_id := none,
    changes := [], additional_info := [] }

/-- A well-behaved event: distinct keys and no marker occurrence inside the
dumped JSON. -/
def benignEvent : AuditEvent :=
  { timestamp := "2025-01-01 00:00:00", action := "UPDATE",
    model := "inventory.Item", object_id := "7", object_str := "Item 7",
    user := "alice", user_id := none,
    changes := [("name", ("a", "b"))], additional_info := [("note", .pstr "x")] }

set_option maxRecDepth 100000 in
/-- C4 counterexample: the round-trip claim fails on an event whose
object_str contains the marker "| JSON: ": the formatter succeeds, but
parse_log_entry on the produced line returns none (str.rfind picks the last
marker occurrence, which sits inside the JSON-escaped object_str value, so
the decoded tail is not JSON), not the original event. -/
theorem c4_roundtrip_counterexample :
    ∃ line, formatRecord "now" (eventMessage evilEvent) = Except.ok line ∧
      parse_log_entry line = none :=
  ⟨_, rfl, rfl⟩

/-- C4 (amended): for every audit event whose changes and additional_info
keys are duplicate-free and whose dumped JSON does not itself contain the
marker "| JSON: ", the formatter succeeds on the event's message and
parse_log_entry recovers exactly the event's JSON encoding (hence the same
action, entity type, entity id, actor, changes and metadata). -/
theorem c4_roundtrip_amended (now : String) (e : AuditEvent)
    (h1 : distinctKeys (e.changes.map (fun c => c.1)) = true)
    (h2 : distinctKeys (e.additional_info.map (fun p => p.1)) = true)
    (h3 : containsSub (dumpsVal (eventToJson e))
      ['|', ' ', 'J', 'S', 'O', 'N', ':', ' '] = false) :
    ∃ line : String, formatRecord now (eventMessage e) = Except.ok line ∧
      parse_log_entry line = some (eventToJson e) := by
  have hwf := eventToJson_wf e h1 h2
  obtain ⟨pre, hpre⟩ := formatRecordBody_event e
  refine ⟨pre ++ " | JSON: " ++ dumps (eventToJson e), ?_, ?_⟩
  · rw [formatRecord, eventMessage, jsonLoads_dumps _ hwf]
    dsimp only
    rw [hpre]
  · exact parse_log_entry_of_line pre _ hwf h3

set_option maxRecDepth 100000 in
/-- C4 witness: the amended round-trip at a concrete benign event. -/
theorem c4_roundtrip_amended_witness :
    ∃ line : String, formatRecord "now" (eventMessage benignEvent)
        = Except.ok line ∧
      parse_log_entry line = some (eventToJson benignEvent) :=
  c4_roundtrip_amended "now" benignEvent rfl rfl rfl

/-- C5 counterexample: the formatter does raise on some records.  The
message "5" is valid JSON (so json.loads succeeds), but the decoded value
is an int, and subscripting it ("entry['timestamp']") raises TypeError —
which the except clause (json.JSONDecodeError, KeyError) does not catch. -/
theorem c5_formatter_fallback_counterexample :
    formatRecord "T" "5" = Except.error PyErr.typeError := rfl

/-- C5 (amended): the fallback protects exactly the two advertised failure
shapes — a message that is not valid JSON, and a decoded dict missing a
required field (KeyError) — and in both cases the formatter returns the
AUDIT_ERROR rendering of the raw message instead of raising. -/
theorem c5_formatter_fallback_amended (now message : String) :
    (jsonLoads message = none →
      formatRecord now message = Except.ok (auditErrorLine now message)) ∧
    (∀ data, jsonLoads message = some data →
      formatRecordBody data = Except.error PyErr.keyError →
      formatRecord now message = Except.ok (auditErrorLine now message)) := by
  constructor
  · intro h
    rw [formatRecord, h]
  · intro data hd hb
    rw [formatRecord, hd]
    dsimp only
    rw [hb]

/-- C5 witness: both fallback branches at concrete inputs — a non-JSON
message, and the empty JSON object (missing the required timestamp key). -/
theorem c5_formatter_fallback_amended_witness :
    formatRecord "T" "oops" = Except.ok (auditErrorLine "T" "oops") ∧
    formatRecord "T" "\x7b\x7d" = Except.ok (auditErrorLine "T" "\x7b\x7d") :=
  ⟨(c5_formatter_fallback_amended "T" "oops").1 rfl,
   (c5_formatter_fallback_amended "T" "\x7b\x7d").2 (Json.obj []) rfl rfl⟩

end EamAudit
